import Mathlib

/-!
# Verification of the AgenticMentor orchestration core

A shallow embedding, in Lean 4, of the orchestration engine of the
AgenticMentor repository (`src/orchestrator`, `src/state`, `src/protocols`,
`src/agents/base_agent.py`), together with theorems settling the frozen
claims about its natural-language specification.

Python's dynamically-typed runtime values are modelled by the inductive type
`PyVal`; pydantic `BaseModel` instances are a dedicated constructor so that
the runtime `isinstance` dispatch in `StateManager._merged_value` can be
reproduced exactly.  Machine floats appearing in scores and confidences are
modelled as rationals (the code only ever adds and multiplies small decimal
literals).  Fallible Python code (exceptions) is modelled with `Except`.
-/

namespace AgenticMentor

/-- Model of a Python runtime value as used by the orchestration core.
`obj name fields` models a pydantic `BaseModel` instance of class `name`
with the given field assignment (`__dict__`).  `meth` models a bound-method
object (an attribute of a model that is not a declared field), which is
never a list, dict or model but is truthy. -/
inductive PyVal where
  | none : PyVal
  | str (s : String) : PyVal
  | int (n : Int) : PyVal
  | bool (b : Bool) : PyVal
  | list (xs : List PyVal) : PyVal
  | dict (kvs : List (String × PyVal)) : PyVal
  | obj (name : String) (fields : List (String × PyVal)) : PyVal
  | meth (name : String) : PyVal
  deriving Repr, Inhabited

namespace PyVal

/-- Python truthiness (`bool(v)`): `None`, `0`, `False`, `""`, `[]`, `{}` are
falsy; objects without `__bool__`/`__len__` (pydantic models, methods) are
truthy. -/
def truthy : PyVal → Bool
  | .none => false
  | .str s => !(s == "")
  | .int n => !(n == 0)
  | .bool b => b
  | .list xs => !xs.isEmpty
  | .dict kvs => !kvs.isEmpty
  | .obj _ _ => true
  | .meth _ => true

end PyVal

/-- `d.get(k)` / `d.get(k, None)` on an insertion-ordered Python dict:
first binding wins (our association lists never hold duplicate keys). -/
def pyGet (kvs : List (String × PyVal)) (k : String) : Option PyVal :=
  (kvs.find? (fun kv => kv.1 = k)).map (fun kv => kv.2)

/-- `d.get(k)` coerced to a value: missing keys yield `None`, like Python. -/
def pyGetD (kvs : List (String × PyVal)) (k : String) : PyVal :=
  (pyGet kvs k).getD PyVal.none

/-- One-key update of an insertion-ordered dict: an existing key keeps its
position, a new key is appended (CPython dict semantics, also the semantics
of `object.__dict__.update` used by `model_copy(update=...)`). -/
def upsert (kvs : List (String × PyVal)) (k : String) (v : PyVal) :
    List (String × PyVal) :=
  if (kvs.find? (fun kv => kv.1 = k)).isSome then
    kvs.map (fun kv => if kv.1 = k then (k, v) else kv)
  else
    kvs ++ [(k, v)]

/-- `d.update(u)` / `model_copy(update=u)`: left-to-right upsert of every
binding of `u` into `kvs`. -/
def upsertAll (kvs u : List (String × PyVal)) : List (String × PyVal) :=
  u.foldl (fun acc kv => upsert acc kv.1 kv.2) kvs

mutual

/-- Recursive `model_dump()`: pydantic model instances become plain dicts,
containers are dumped element-wise, scalars are unchanged. -/
def pyDump : PyVal → PyVal
  | .obj _ fields => .dict (pyDumpKVs fields)
  | .list xs => .list (pyDumpList xs)
  | .dict kvs => .dict (pyDumpKVs kvs)
  | v => v

/-- `model_dump` mapped over the elements of a Python list. -/
def pyDumpList : List PyVal → List PyVal
  | [] => []
  | x :: xs => pyDump x :: pyDumpList xs

/-- `model_dump` mapped over the values of a dict / field assignment. -/
def pyDumpKVs : List (String × PyVal) → List (String × PyVal)
  | [] => []
  | (k, v) :: kvs => (k, pyDump v) :: pyDumpKVs kvs

end

/-! ## `src/state/project_state.py` — the session record

`ProjectState` is a pydantic model with eleven declared fields.  pydantic
does not validate plain attribute assignment here (`validate_assignment` is
off), so a field can drift to an arbitrary runtime value over the life of a
session; every field is therefore a `PyVal`.  Timestamps are modelled as
integers. -/

structure ProjectState where
  session_id : PyVal
  project_name : PyVal
  created_at : PyVal
  updated_at : PyVal
  current_phase : PyVal
  requirements : PyVal
  architecture : PyVal
  mockups : PyVal
  roadmap : PyVal
  conversation_history : PyVal
  agent_interactions : PyVal
  deriving Repr, Inhabited

namespace ProjectState

/-- The declared pydantic fields of `ProjectState`, in declaration order. -/
def declaredFields : List String :=
  ["session_id", "project_name", "created_at", "updated_at", "current_phase",
   "requirements", "architecture", "mockups", "roadmap",
   "conversation_history", "agent_interactions"]

/-- A (non-exhaustive) selection of attribute names every pydantic
`BaseModel` instance exposes that are *not* declared fields: inherited
methods.  `hasattr(state, n)` is true for these, but pydantic's
`BaseModel.__setattr__` raises
`ValueError: "ProjectState" object has no field "n"` when one of them is
assigned (`model_config.extra` is not `"allow"`). -/
def methodAttrs : List String :=
  ["model_dump", "model_copy", "model_dump_json", "model_fields_set", "dict",
   "json", "copy"]

/-- `getattr(state, key, None)` restricted to declared fields: the value of
the named field, or `none` when the name is not a declared field. -/
def getField? (st : ProjectState) (key : String) : Option PyVal :=
  if key = "session_id" then some st.session_id
  else if key = "project_name" then some st.project_name
  else if key = "created_at" then some st.created_at
  else if key = "updated_at" then some st.updated_at
  else if key = "current_phase" then some st.current_phase
  else if key = "requirements" then some st.requirements
  else if key = "architecture" then some st.architecture
  else if key = "mockups" then some st.mockups
  else if key = "roadmap" then some st.roadmap
  else if key = "conversation_history" then some st.conversation_history
  else if key = "agent_interactions" then some st.agent_interactions
  else Option.none

/-- `setattr(state, key, v)` for a declared field (the only case in which
pydantic's `__setattr__` succeeds); other keys leave the record unchanged
(callers must check `declaredFields` first). -/
def setField (st : ProjectState) (key : String) (v : PyVal) : ProjectState :=
  if key = "session_id" then { st with session_id := v }
  else if key = "project_name" then { st with project_name := v }
  else if key = "created_at" then { st with created_at := v }
  else if key = "updated_at" then { st with updated_at := v }
  else if key = "current_phase" then { st with current_phase := v }
  else if key = "requirements" then { st with requirements := v }
  else if key = "architecture" then { st with architecture := v }
  else if key = "mockups" then { st with mockups := v }
  else if key = "roadmap" then { st with roadmap := v }
  else if key = "conversation_history" then { st with conversation_history := v }
  else if key = "agent_interactions" then { st with agent_interactions := v }
  else st

/-- `hasattr(state, key)`: true for declared fields and for inherited
`BaseModel` attributes (modelled by the `methodAttrs` selection). -/
def hasAttr (key : String) : Bool :=
  declaredFields.contains key || methodAttrs.contains key

/-- `getattr(state, key)` including inherited non-field attributes, which
evaluate to bound-method objects. -/
def getAttr? (st : ProjectState) (key : String) : Option PyVal :=
  match st.getField? key with
  | some v => some v
  | Option.none => if methodAttrs.contains key then some (PyVal.meth key) else Option.none

/-- `state.model_dump()`: the eleven declared fields, recursively dumped,
in declaration order. -/
def dump (st : ProjectState) : PyVal :=
  PyVal.dict
    [("session_id", pyDump st.session_id),
     ("project_name", pyDump st.project_name),
     ("created_at", pyDump st.created_at),
     ("updated_at", pyDump st.updated_at),
     ("current_phase", pyDump st.current_phase),
     ("requirements", pyDump st.requirements),
     ("architecture", pyDump st.architecture),
     ("mockups", pyDump st.mockups),
     ("roadmap", pyDump st.roadmap),
     ("conversation_history", pyDump st.conversation_history),
     ("agent_interactions", pyDump st.agent_interactions)]

end ProjectState

/-- The default `Requirements()` fragment. -/
def emptyRequirements : PyVal :=
  PyVal.obj "Requirements"
    [("functional", PyVal.list []), ("non_functional", PyVal.list []),
     ("constraints", PyVal.list []), ("user_stories", PyVal.list []),
     ("gaps", PyVal.list [])]

/-- The default `ArchitectureDefinition()` fragment. -/
def emptyArchitecture : PyVal :=
  PyVal.obj "ArchitectureDefinition"
    [("tech_stack", PyVal.dict []), ("tech_stack_rationale", PyVal.none),
     ("data_schema", PyVal.none), ("system_diagram", PyVal.none),
     ("api_design", PyVal.list []), ("deployment_strategy", PyVal.none)]

/-- The default `Roadmap()` fragment. -/
def emptyRoadmap : PyVal :=
  PyVal.obj "Roadmap"
    [("phases", PyVal.list []), ("milestones", PyVal.list []),
     ("implementation_tasks", PyVal.list []), ("sprints", PyVal.list []),
     ("critical_path", PyVal.none), ("external_resources", PyVal.list [])]

/-- `ProjectState(session_id=sid)`: all defaults, phase `"initialization"`.
Creation timestamps are modelled by the supplied clock value. -/
def defaultProjectState (sid : String) (now : Int) : ProjectState where
  session_id := PyVal.str sid
  project_name := PyVal.none
  created_at := PyVal.int now
  updated_at := PyVal.int now
  current_phase := PyVal.str "initialization"
  requirements := emptyRequirements
  architecture := emptyArchitecture
  mockups := PyVal.list []
  roadmap := emptyRoadmap
  conversation_history := PyVal.list []
  agent_interactions := PyVal.dict []

/-! ## `src/orchestrator/agent_store.py` — the capability catalog -/

structure AgentEntry where
  id : String
  name : String
  descr : String
  requires : List String
  produces : List String
  phase_compatibility : List String
  deriving Repr, DecidableEq

/-- The static agent registry metadata (`AGENT_STORE`). -/
def AGENT_STORE : List AgentEntry :=
  [{ id := "requirements_collector", name := "Requirements Collector",
     descr := "Asks structured questions to gather goals, constraints, features. Updates requirements state.",
     requires := [], produces := ["requirements"],
     phase_compatibility := ["initialization", "discovery", "*"] },
   { id := "project_architect", name := "Project Architect",
     descr := "Turns requirements into tech stack, system/ER diagrams, API and data model.",
     requires := ["requirements"], produces := ["architecture"],
     phase_compatibility := ["requirements_complete", "architecture_complete"] },
   { id := "execution_planner", name := "Execution Planner Agent",
     descr := "Creates phases, milestones, and implementation steps from architecture.",
     requires := ["architecture"], produces := ["roadmap"],
     phase_compatibility := ["architecture_complete"] },
   { id := "mockup_agent", name := "Mockup Agent",
     descr := "Generates UI wireframes and Figma-ready layouts.",
     requires := ["requirements", "architecture"], produces := ["mockups"],
     phase_compatibility := ["requirements_complete"] },
   { id := "exporter", name := "Exporter",
     descr := "Bundles all artifacts into Markdown, PDF, or GitHub-ready docs.",
     requires := ["*"], produces := ["export"],
     phase_compatibility := ["*"] }]

/-- Default full pipeline when intent is unknown or classification fails. -/
def FULL_PIPELINE_AGENT_IDS : List String :=
  ["requirements_collector", "project_architect", "execution_planner",
   "mockup_agent", "exporter"]

/-- `get_agent_by_id`: first store entry with the given id, or none. -/
def getAgentById (agent_id : String) : Option AgentEntry :=
  AGENT_STORE.find? (fun e => e.id = agent_id)

/-- `get_producer_for_artifact`: id of the first store entry producing the
artifact, or none. -/
def getProducerForArtifact (artifact : String) : Option String :=
  (AGENT_STORE.find? (fun e => e.produces.contains artifact)).map (fun e => e.id)

/-! ## `src/orchestrator/execution_planner.py` — plan construction

The planner consults the session state only through
`_state_has_artifact(state, key)`, so the dependency-resolution passes are
stated over the induced artifact-presence function `has : String → Bool`;
`ExecutionPlanner.plan` instantiates `has` with the session state's own
presence function. -/

/-- `_state_has_artifact`: true iff the state has a non-empty value for
`key`.  `"*"` is always present; a missing attribute is read as `None`
(absent); empty lists and dicts are absent; a pydantic fragment is present
iff any of its dumped field values is truthy; anything else is present. -/
def stateHasArtifact (st : ProjectState) (key : String) : Bool :=
  if key = "*" then true
  else
    match st.getField? key with
    | Option.none => false
    | some v =>
      match v with
      | PyVal.none => false
      | PyVal.list xs => !xs.isEmpty
      | PyVal.dict kvs => !kvs.isEmpty
      | PyVal.obj _ fields =>
        if fields.isEmpty then false
        else (pyDumpKVs fields).any (fun kv => kv.2.truthy)
      | _ => true

/-- The body of `_resolve_upstream.add_with_deps`: depth-first insertion of
`aid` with the producers of its absent required artifacts first.  `acc` is
the result list built so far (the `seen` set of the source is exactly
membership in it).  The `fuel` argument only bounds the recursion depth —
the source recurses on the producer of each artifact, and the longest
`requires` chain in `AGENT_STORE` has length 2, so any fuel ≥ the store
size is enough and the 0 branch is unreachable. -/
def addWithDeps (has : String → Bool) : Nat → String → List String → List String
  | 0, _, acc => acc
  | fuel + 1, aid, acc =>
    if acc.contains aid then acc
    else
      match getAgentById aid with
      | Option.none => acc ++ [aid]
      | some entry =>
        if entry.requires.contains "*" then acc ++ [aid]
        else
          (entry.requires.foldl
            (fun a art =>
              if has art then a
              else
                match getProducerForArtifact art with
                | some producer => addWithDeps has fuel producer a
                | Option.none => a)
            acc) ++ [aid]

/-- `_resolve_upstream`: prepend missing upstream agents so dependencies
are satisfied (no duplicates, dependency order). -/
def resolveUpstream (has : String → Bool) (agent_ids : List String) : List String :=
  agent_ids.foldl (fun acc aid => addWithDeps has AGENT_STORE.length aid acc) []

/-- Artifacts produced by the agents currently in the plan. -/
def producedBy (result : List String) : List String :=
  result.foldl
    (fun acc aid =>
      match getAgentById aid with
      | some entry => acc ++ entry.produces
      | Option.none => acc)
    []

/-- The guarded append of one freshly resolved id inside
`_resolve_downstream` (`if nid not in seen: seen.add(nid); result.append(nid)`),
with the `changed` flag in the second component. -/
def downstreamAppend (a : List String × Bool) (nid : String) :
    List String × Bool :=
  if a.1.contains nid then a else (a.1 ++ [nid], true)

/-- The body of `_resolve_downstream`'s inner `for entry in AGENT_STORE`
loop: an agent not yet planned, without wildcard requirements, that
requires an artifact in `produced` is appended together with its own
upstream dependencies. -/
def downstreamEntryStep (has : String → Bool) (produced : List String)
    (acc : List String × Bool) (entry : AgentEntry) : List String × Bool :=
  if acc.1.contains entry.id then acc
  else if entry.requires.contains "*" then acc
  else if entry.requires.any (fun art => produced.contains art) then
    (resolveUpstream has [entry.id]).foldl downstreamAppend acc
  else acc

/-- One pass of `_resolve_downstream`'s inner `for` loop over the store.
Returns the extended plan and whether anything changed. -/
def downstreamPass (has : String → Bool) (produced : List String)
    (st : List String × Bool) : List String × Bool :=
  AGENT_STORE.foldl (downstreamEntryStep has produced) st

/-- The `while changed` loop of `_resolve_downstream`.  Each iteration that
changes anything adds at least one store id to the plan, so at most
`AGENT_STORE.length + 1` iterations can run; the fuel bounds are never hit. -/
def downstreamLoop (has : String → Bool) : Nat → List String → List String
  | 0, result => result
  | fuel + 1, result =>
    if (downstreamPass has (producedBy result) (result, false)).2 then
      downstreamLoop has fuel
        (downstreamPass has (producedBy result) (result, false)).1
    else (downstreamPass has (producedBy result) (result, false)).1

/-- `_resolve_downstream`: expand the plan to fixpoint with agents that
consume artifacts the plan already produces. -/
def resolveDownstream (has : String → Bool) (resolved_ids : List String) :
    List String :=
  downstreamLoop has (AGENT_STORE.length + 1) resolved_ids

/-! ### `src/orchestrator/execution_plan.py` and `ExecutionPlanner.plan` -/

structure Task where
  agent_id : String
  required_context : List String
  deriving Repr, DecidableEq

/-- `IntentResult` (a `TypedDict` in the source). -/
structure IntentResult where
  primary_intent : String
  requires_agents : List String
  confidence : ℚ
  deriving Repr, DecidableEq

/-- Python `phase not in phases` for a runtime phase value against a list of
string labels: a non-string phase never matches. -/
def phaseMem (phase : PyVal) (phases : List String) : Bool :=
  match phase with
  | PyVal.str s => phases.contains s
  | _ => false

/-- The agent ids the planner starts from: the intent's `requires_agents`,
or the full pipeline when that list is empty or the intent is unknown. -/
def effectiveAgentIds (intent : IntentResult) : List String :=
  if intent.requires_agents.isEmpty || intent.primary_intent = "unknown" then
    FULL_PIPELINE_AGENT_IDS
  else intent.requires_agents

/-- The phase filter of `ExecutionPlanner.plan`: a resolved id survives iff
it is in the store and phase-compatible with the current phase. -/
def phaseKeep (phase : PyVal) (aid : String) : Bool :=
  match getAgentById aid with
  | Option.none => false
  | some entry =>
    entry.phase_compatibility.contains "*" || phaseMem phase entry.phase_compatibility

/-- `ExecutionPlanner.plan`: resolve upstream then downstream, filter by
phase compatibility, and emit one task per surviving id with that agent's
declared `requires` as required context. -/
def planFn (intent : IntentResult) (st : ProjectState) : List Task :=
  (resolveDownstream (stateHasArtifact st)
    (resolveUpstream (stateHasArtifact st) (effectiveAgentIds intent))).filterMap
    (fun aid =>
      match getAgentById aid with
      | Option.none => Option.none
      | some entry =>
        if entry.phase_compatibility.contains "*" ||
            phaseMem st.current_phase entry.phase_compatibility
        then some { agent_id := aid, required_context := entry.requires }
        else Option.none)

/-! ## `src/orchestrator/intent_classifier.py` — rule-based classification

The orchestrator is modelled without a configured LLM (`_make_llm_if_configured`
returns `None` unless a Gemini key is present), so `analyze` always takes the
rule-based path. -/

/-- `lst.isPrefixOf`-style check on character lists, written out. -/
def charsLead : List Char → List Char → Bool
  | [], _ => true
  | _ :: _, [] => false
  | c :: cs, d :: ds => c == d && charsLead cs ds

/-- Occurrence of `needle` anywhere in `hay` (character lists). -/
def charsSub (needle : List Char) : List Char → Bool
  | [] => charsLead needle []
  | d :: ds => charsLead needle (d :: ds) || charsSub needle ds

/-- Python `needle in hay` on strings (substring containment). -/
def strIn (needle hay : String) : Bool :=
  charsSub needle.data hay.data

/-- Python `s.lower()` (character-wise, kernel-computable). -/
def lowerStr (s : String) : String :=
  String.mk (s.data.map Char.toLower)

/-- Python `s.strip()`: drop leading and trailing whitespace
(kernel-computable counterpart of `String.trim`). -/
def pyStrip (s : String) : String :=
  String.mk
    (((s.data.dropWhile Char.isWhitespace).reverse.dropWhile
      Char.isWhitespace).reverse)

/-- One entry of `INTENT_PATTERNS`. -/
structure IntentPattern where
  intent : String
  keywords : List String
  phase_compatibility : List String
  triggers : List String
  deriving Repr, DecidableEq

/-- `INTENT_PATTERNS`, in dict (insertion) order.  Note that the keywords
are matched verbatim against the *lowercased* utterance, exactly as in the
source — so the upper-case keywords (`"API"`, `"UI"`, `"PDF"`) can never
hit. -/
def INTENT_PATTERNS : List IntentPattern :=
  [{ intent := "requirements_gathering",
     keywords := ["need", "want", "goal", "problem", "user story"],
     phase_compatibility := ["initialization", "discovery"],
     triggers := ["clarify", "what if", "constraints"] },
   { intent := "architecture_design",
     keywords := ["architecture", "tech stack", "database", "API"],
     phase_compatibility := ["requirements_complete"],
     triggers := ["diagram", "structure", "how does"] },
   { intent := "mockup_creation",
     keywords := ["UI", "screen", "flow", "wireframe", "design"],
     phase_compatibility := ["requirements_complete"],
     triggers := ["looks like", "user journey"] },
   { intent := "execution_planning",
     keywords := ["roadmap", "timeline", "milestone", "sprint"],
     phase_compatibility := ["architecture_complete"],
     triggers := ["how long", "when", "priority"] },
   { intent := "export",
     keywords := ["export", "download", "document", "PDF"],
     phase_compatibility := ["*"],
     triggers := ["generate", "compile"] }]

/-- `INTENT_TO_AGENTS`. -/
def INTENT_TO_AGENTS (intent : String) : List String :=
  if intent = "requirements_gathering" then ["requirements_collector"]
  else if intent = "architecture_design" then ["project_architect"]
  else if intent = "mockup_creation" then ["mockup_agent"]
  else if intent = "execution_planning" then ["execution_planner"]
  else if intent = "export" then ["exporter"]
  else []

/-- A pattern is considered for the current phase iff its
`phase_compatibility` holds the wildcard or the phase. -/
def patternCompatible (phase : PyVal) (p : IntentPattern) : Bool :=
  p.phase_compatibility.contains "*" || phaseMem phase p.phase_compatibility

/-- Keyword/trigger score of a pattern against the lowercased text. -/
def patternScore (text : String) (p : IntentPattern) : Nat :=
  ((p.keywords ++ p.triggers).filter (fun k => strIn k text)).length

/-- One step of the `for intent_name, pattern in INTENT_PATTERNS.items()`
loop: keep the best (strictly higher) score, so ties go to the earlier
catalog entry. -/
def bestStep (phase : PyVal) (text : String)
    (best : Option IntentPattern × Nat) (p : IntentPattern) :
    Option IntentPattern × Nat :=
  if patternCompatible phase p then
    if patternScore text p > best.2 then (some p, patternScore text p) else best
  else best

/-- The full scan of `INTENT_PATTERNS`. -/
def bestPattern (phase : PyVal) (text : String) :
    Option IntentPattern × Nat :=
  INTENT_PATTERNS.foldl (bestStep phase text) (Option.none, 0)

/-- `IntentClassifier._analyze_rule_based` (floats as rationals). -/
def analyzeRuleBased (user_input : String) (current_phase : PyVal) : IntentResult :=
  let text := pyStrip (lowerStr user_input)
  if text = "" then
    { primary_intent := "unknown", requires_agents := [], confidence := 0 }
  else
    match bestPattern current_phase text with
    | (Option.none, _) =>
      { primary_intent := "unknown", requires_agents := [], confidence := 0 }
    | (some p, score) =>
      { primary_intent := p.intent,
        requires_agents := INTENT_TO_AGENTS p.intent,
        confidence := min 1 (3/10 + (2/10) * (score : ℚ)) }

/-! ## `src/state/state_manager.py` — cached state with delta merging

The persistence adapter is the repository's `InMemoryPersistenceAdapter`
(`src/storage/memory_store.py`): a dict from session id to the saved
`model_dump`.  Its `get` never fails; to express requests whose state load
fails (the spec's `PlanningError`), the orchestrator below is additionally
parameterised by the adapter's `get` behaviour. -/

/-- `StateManager._merged_value(current, value)`: pydantic fragments absorb
dict deltas via `model_copy(update=...)`, lists extend (scalars are wrapped
first), dicts shallow-upsert, anything else is replaced. -/
def mergedValue (current value : PyVal) : PyVal :=
  match current, value with
  | PyVal.obj name fields, PyVal.dict u => PyVal.obj name (upsertAll fields u)
  | PyVal.list xs, v =>
    PyVal.list (xs ++ (match v with | PyVal.list ys => ys | w => [w]))
  | PyVal.dict kvs, PyVal.dict u => PyVal.dict (upsertAll kvs u)
  | _, v => v

/-- `StateManager._merge_or_set(state, key, value)` for a top-level key:
a key that is not an attribute at all is silently skipped; a declared field
is merged and re-assigned; a non-field attribute (an inherited `BaseModel`
method) survives the `hasattr` guard but makes pydantic's `__setattr__`
raise `ValueError`. -/
def mergeOrSet (st : ProjectState) (key : String) (value : PyVal) :
    Except String ProjectState :=
  if !ProjectState.hasAttr key then Except.ok st
  else if ProjectState.declaredFields.contains key then
    match st.getField? key with
    | some current => Except.ok (st.setField key (mergedValue current value))
    | Option.none => Except.ok st
  else
    Except.error ("ValueError: \x22ProjectState\x22 object has no field \x22" ++ key ++ "\x22")

/-- Writing a merged leaf value into an intermediate object of a dotted
path (the tail of `StateManager._apply_delta`).  Dicts use `.get`/`[...]=`
(missing keys read as `None` and are created on write); pydantic models use
`getattr(..., None)`/`setattr`, where `setattr` on an undeclared field
raises; any other intermediate raises `AttributeError` as in Python. -/
def applyPath : PyVal → List String → PyVal → Except String PyVal
  | target, [leaf], value =>
    match target with
    | PyVal.dict kvs =>
      Except.ok (PyVal.dict (upsert kvs leaf (mergedValue (pyGetD kvs leaf) value)))
    | PyVal.obj name fields =>
      if (fields.find? (fun kv => kv.1 = leaf)).isSome then
        Except.ok (PyVal.obj name
          (upsert fields leaf (mergedValue (pyGetD fields leaf) value)))
      else Except.error "ValueError: object has no field"
    | _ => Except.error "AttributeError"
  | target, part :: rest@(_ :: _), value =>
    (match target with
     | PyVal.dict kvs => Except.ok (pyGetD kvs part)
     | PyVal.obj _ fields =>
       match pyGet fields part with
       | some v => Except.ok v
       | Option.none => Except.error "AttributeError"
     | _ => Except.error "AttributeError").bind
      (fun child =>
        (applyPath child rest value).map
          (fun child2 =>
            match target with
            | PyVal.dict kvs => PyVal.dict (upsert kvs part child2)
            | PyVal.obj name fields => PyVal.obj name (upsert fields part child2)
            | other => other))
  | _, [], value => Except.ok value

/-- `StateManager._apply_delta(state, key, value)`: top-level keys go
through `_merge_or_set`, dotted keys are navigated from the state's first
field onward. -/
def applyDelta (st : ProjectState) (key : String) (value : PyVal) :
    Except String ProjectState :=
  if !(strIn "." key) then mergeOrSet st key value
  else
    match key.splitOn "." with
    | [] => mergeOrSet st key value
    | root :: rest =>
      match st.getField? root with
      | Option.none => Except.error "AttributeError"
      | some v =>
        (applyPath v rest value).map (fun v2 => st.setField root v2)

/-- The in-memory persistence adapter's store: session id ↦ saved dump. -/
abbrev Store := List (String × PyVal)

/-- `InMemoryPersistenceAdapter.save`. -/
def storeSave (db : Store) (sid : String) (dumped : PyVal) : Store :=
  upsert db sid dumped

/-- The world a `StateManager` acts on: its in-memory cache plus the
persistence adapter's store. -/
structure World where
  cache : List (String × ProjectState)
  db : Store

/-- The empty world: fresh cache, empty persistence store. -/
def World.empty : World := { cache := [], db := [] }

/-- Update (or add) the cache entry for a session. -/
def cachePut (cache : List (String × ProjectState)) (sid : String)
    (st : ProjectState) : List (String × ProjectState) :=
  if (cache.find? (fun kv => kv.1 = sid)).isSome then
    cache.map (fun kv => if kv.1 = sid then (sid, st) else kv)
  else cache ++ [(sid, st)]

def cacheGet (cache : List (String × ProjectState)) (sid : String) :
    Option ProjectState :=
  (cache.find? (fun kv => kv.1 = sid)).map (fun kv => kv.2)

/-- Rebuilding a `ProjectState` from a saved dump (`ProjectState(**d)`).
Dict-valued `requirements`/`architecture`/`roadmap` entries are re-validated
into their pydantic fragment classes; absent keys fall back to the field
defaults.  (Only exercised when a session is loaded cold from a pre-seeded
store; every run proved below starts either from an empty store or from a
warm cache.) -/
def stateOfDump (sid : String) (now : Int) (d : PyVal) : ProjectState :=
  match d with
  | PyVal.dict kvs =>
    let fresh := defaultProjectState sid now
    let revive := fun (name : String) (dflt : PyVal) =>
      match pyGet kvs name with
      | some (PyVal.dict fs) =>
        (match dflt with
         | PyVal.obj cls dfs => PyVal.obj cls (upsertAll dfs fs)
         | _ => PyVal.dict fs)
      | some v => v
      | Option.none => dflt
    { session_id := (pyGet kvs "session_id").getD fresh.session_id
      project_name := (pyGet kvs "project_name").getD fresh.project_name
      created_at := (pyGet kvs "created_at").getD fresh.created_at
      updated_at := (pyGet kvs "updated_at").getD fresh.updated_at
      current_phase := (pyGet kvs "current_phase").getD fresh.current_phase
      requirements := revive "requirements" emptyRequirements
      architecture := revive "architecture" emptyArchitecture
      mockups := (pyGet kvs "mockups").getD (PyVal.list [])
      roadmap := revive "roadmap" emptyRoadmap
      conversation_history := (pyGet kvs "conversation_history").getD (PyVal.list [])
      agent_interactions := (pyGet kvs "agent_interactions").getD (PyVal.dict []) }
  | _ => defaultProjectState sid now

/-- The adapter `get` behaviour the manager is wired to.  The in-memory
adapter looks the dump up and never fails; an unreachable backend is any
function returning `Except.error`. -/
abbrev AdapterGet := Store → String → Except String (Option PyVal)

/-- `InMemoryPersistenceAdapter.get`. -/
def inMemGet : AdapterGet := fun db sid => Except.ok (pyGet db sid)

/-- `StateManager.load`: cache first, then the adapter, then a default
record. -/
def smLoad (getf : AdapterGet) (w : World) (sid : String) (now : Int) :
    Except String (ProjectState × World) :=
  match cacheGet w.cache sid with
  | some st => Except.ok (st, w)
  | Option.none =>
    (getf w.db sid).map
      (fun found =>
        let st := match found with
          | some d => stateOfDump sid now d
          | Option.none => defaultProjectState sid now
        (st, { w with cache := cachePut w.cache sid st }))

/-- `StateManager.update`: load, apply every delta key in order, stamp
`updated_at`, persist the full dump, refresh the cache. -/
def smUpdate (getf : AdapterGet) (w : World) (sid : String)
    (delta : List (String × PyVal)) (now : Int) :
    Except String (ProjectState × World) :=
  (smLoad getf w sid now).bind
    (fun (st, w1) =>
      (delta.foldlM (fun s (kv : String × PyVal) => applyDelta s kv.1 kv.2) st).map
        (fun st2 =>
          let st3 := st2.setField "updated_at" (PyVal.int now)
          (st3, { cache := cachePut w1.cache sid st3,
                  db := storeSave w1.db sid st3.dump })))

/-! ## `src/protocols/review_protocol.py` — multi-dimensional validation -/

structure ValidationResult where
  score : ℚ
  issues : List String
  deriving Repr, DecidableEq

structure ReviewResult where
  is_valid : Bool
  score : ℚ
  feedback : List String
  detailed_scores : List (String × ℚ)
  deriving Repr, DecidableEq

/-- `FeasibilityValidator.check`: flags a missing output, an
empty/whitespace output string, or an empty container. -/
def feasibilityCheck (output : PyVal) : ValidationResult :=
  let issues :=
    match output with
    | PyVal.none => ["Output is missing"]
    | PyVal.str s => if pyStrip s = "" then ["Output text is empty"] else []
    | PyVal.dict kvs => if kvs.isEmpty then ["Output payload is empty"] else []
    | PyVal.list xs => if xs.isEmpty then ["Output payload is empty"] else []
    | _ => []
  { score := max 0 (1 - (2/10) * (issues.length : ℚ)), issues := issues }

/-- `ClarityValidator.check`: flags a blank output string or a keyless
output dict. -/
def clarityCheck (output : PyVal) : ValidationResult :=
  let issues :=
    (match output with
     | PyVal.str s => if pyStrip s = "" then ["Output text is blank"] else []
     | _ => []) ++
    (match output with
     | PyVal.dict kvs => if kvs.isEmpty then ["Output object has no keys"] else []
     | _ => [])
  { score := max 0 (1 - (2/10) * (issues.length : ℚ)), issues := issues }

/-- `CompletenessValidator.check`: a dict output must not carry explicit
`None` under `state_delta` or `metadata`. -/
def completenessCheck (output : PyVal) : ValidationResult :=
  let issues :=
    match output with
    | PyVal.dict kvs =>
      (match pyGet kvs "state_delta" with
       | some PyVal.none => ["state_delta cannot be None"]
       | _ => []) ++
      (match pyGet kvs "metadata" with
       | some PyVal.none => ["metadata cannot be None"]
       | _ => [])
    | _ => []
  { score := max 0 (1 - (2/10) * (issues.length : ℚ)), issues := issues }

/-- `ConsistencyValidator.check`: always passes. -/
def consistencyCheck (_output : PyVal) : ValidationResult :=
  { score := 1, issues := [] }

/-- The fixed validator set, in construction order, with their names. -/
def validatorRun (output : PyVal) : List (String × ValidationResult) :=
  [("feasibility", feasibilityCheck output),
   ("clarity", clarityCheck output),
   ("completeness", completenessCheck output),
   ("consistency", consistencyCheck output)]

/-- The agent-declared quality criteria: named criterion ↦ weight. -/
abbrev Criteria := List (String × ℚ)

/-- `ReviewProtocol._calculate_weighted_score`: weighted sum over the score
dict, each dimension weighted by its declared criterion weight or the
equal-share default `1/len(scores)`, normalised by the weight actually
used. -/
def calculateWeightedScore (scores : List (String × ℚ)) (criteria : Criteria) : ℚ :=
  if scores.isEmpty then 0
  else
    let defaultWeight : ℚ := 1 / (max 1 scores.length : ℕ)
    let acc := scores.foldl
      (fun (a : ℚ × ℚ) dim =>
        let weight := ((criteria.find? (fun kv => kv.1 = dim.1)).map
          (fun kv => kv.2)).getD defaultWeight
        (a.1 + dim.2 * weight, a.2 + weight))
      (0, 0)
    if acc.2 = 0 then 0 else acc.1 / acc.2

/-- `ReviewProtocol.validate`: run all four validators, collect scores and
feedback, combine, and accept iff the combined score reaches `min_score`
and no issue was raised. -/
def reviewValidate (minScore : ℚ) (output : PyVal) (criteria : Criteria) :
    ReviewResult :=
  let runs := validatorRun output
  let scores := runs.map (fun r => (r.1, r.2.score))
  let feedback := runs.foldl (fun acc r => acc ++ r.2.issues) []
  let total := calculateWeightedScore scores criteria
  { is_valid := decide (total ≥ minScore) && feedback.isEmpty,
    score := total, feedback := feedback, detailed_scores := scores }

/-- `ReviewProtocol.__init__`: `min_score` defaults to 0.75 when the config
does not override it. -/
def reviewMinScore (config : Criteria) : ℚ :=
  ((config.find? (fun kv => kv.1 = "min_score")).map (fun kv => kv.2)).getD (3/4)

/-! ## `src/agents/base_agent.py` — the review/retry wrapper

An agent's `_generate` step is an arbitrary function from the (possibly
corrected) input to a raw output; `execute` wraps it in the bounded review
loop.  The model is total: the loop body contains no `raise` and catches
nothing, so an agent whose generation returns normally always yields an
`AgentOutput`. -/

structure AgentOutput where
  content : PyVal
  state_delta : List (String × PyVal)
  metadata : List (String × PyVal)
  deriving Repr

/-- `BaseAgent._build_correction_prompt`: dict inputs gain
`previous_output` and `review_feedback` keys; any other input is formatted
into a textual correction prompt. -/
def buildCorrectionPrompt (original_input failed_output : PyVal)
    (review_feedback : List String) : PyVal :=
  match original_input with
  | PyVal.dict kvs =>
    PyVal.dict (upsert (upsert kvs "previous_output" failed_output)
      "review_feedback" (PyVal.list (review_feedback.map PyVal.str)))
  | other =>
    let feedback_text :=
      if review_feedback.isEmpty then "Unknown issue"
      else String.intercalate "; " review_feedback
    let headText := match other with
      | PyVal.str s => s
      | v => toString (repr v)
    PyVal.str (headText ++ "\n\nThe previous output failed validation. Fix these issues: "
      ++ feedback_text)

/-- `BaseAgent._extract_state_delta`. -/
def extractStateDelta (raw_output : PyVal) : List (String × PyVal) :=
  match raw_output with
  | PyVal.dict kvs =>
    match pyGet kvs "state_delta" with
    | some (PyVal.dict delta) => delta
    | _ => []
  | _ => []

/-- The review score carried into success metadata.  Scores are rationals;
the source stores the float directly, here it is scaled to a decimal
(numerator over 10^k is irrelevant to every claim, so the raw rational is
kept as a pair of its numerator and denominator). -/
def ratMeta (q : ℚ) : PyVal :=
  PyVal.dict [("num", PyVal.int q.num), ("den", PyVal.int (q.den : Int))]

/-- The `while attempt < max_attempts` loop of `BaseAgent.execute`:
`remaining = max_attempts - attempt`, `attempt` counts failures so far and
`lastRaw` is the running `raw_output` (initially `{}`). -/
def executeLoop (name : String) (minScore : ℚ) (criteria : Criteria)
    (generate : PyVal → PyVal) :
    Nat → Nat → PyVal → PyVal → AgentOutput
  | 0, attempt, _input, lastRaw =>
    { content := lastRaw, state_delta := [],
      metadata := [("agent", PyVal.str name),
                   ("status", PyVal.str "degraded"),
                   ("review_failures", PyVal.int attempt)] }
  | remaining + 1, attempt, input, _lastRaw =>
    let raw := generate input
    let review := reviewValidate minScore raw criteria
    if review.is_valid then
      { content := raw, state_delta := extractStateDelta raw,
        metadata := [("agent", PyVal.str name),
                     ("review_score", ratMeta review.score),
                     ("attempts", PyVal.int (attempt + 1))] }
    else
      executeLoop name minScore criteria generate remaining (attempt + 1)
        (buildCorrectionPrompt input raw review.feedback) raw

/-- `BaseAgent.execute` with `max_attempts = 3`. -/
def baseAgentExecute (name : String) (minScore : ℚ) (criteria : Criteria)
    (generate : PyVal → PyVal) (input : PyVal) : AgentOutput :=
  executeLoop name minScore criteria generate 3 0 input (PyVal.dict [])

/-! ## `src/orchestrator/master_agent.py` — the orchestration loop

The orchestrator is modelled with no configured LLM, so intent
classification is the rule-based path.  Agents are abstract behaviours
(`process` for the architect adapter, `process_message` for the
requirements collector); `Except.error` models a raised exception inside
the call.  The registry is an abstract `String → Option Agent`, matching
the `AgentRegistry` object handed to the constructor. -/

structure Agent where
  process : PyVal → Except String PyVal
  processMessage : String → PyVal → PyVal → Except String PyVal

abbrev Registry := String → Option Agent

/-- `PHASE_TRANSITION_MAP`. -/
def phaseTransitionMap (agent_id : String) : Option String :=
  if agent_id = "requirements_collector" then some "requirements_complete"
  else if agent_id = "project_architect" then some "architecture_complete"
  else if agent_id = "execution_planner" then some "planning_complete"
  else if agent_id = "mockup_agent" then some "design_complete"
  else if agent_id = "exporter" then some "exportable"
  else Option.none

/-- One step of the dotted-path walk in `_extract_context`:
`getattr(val, part, None) if not isinstance(val, dict) else val.get(part)`. -/
def ctxStep (v : PyVal) (part : String) : PyVal :=
  match v with
  | PyVal.dict kvs => pyGetD kvs part
  | PyVal.obj _ fields => pyGetD fields part
  | _ => PyVal.none

/-- `MasterOrchestrator._extract_context`: a wildcard or an empty requirement
list yields the full state dump; otherwise each requested key is projected
(dumping pydantic fragments), dotted keys by walking the path. -/
def extractContext (ps : ProjectState) (required_context : List String) :
    List (String × PyVal) :=
  if required_context.isEmpty || required_context.contains "*" then
    match ps.dump with
    | PyVal.dict kvs => kvs
    | _ => []
  else
    required_context.foldl
      (fun out key =>
        if strIn "." key then
          match key.splitOn "." with
          | [] => out ++ [(key, PyVal.none)]
          | root :: rest =>
            let start := ((ProjectState.getAttr? ps root).getD PyVal.none)
            out ++ [(key, rest.foldl ctxStep start)]
        else
          let val := (ps.getField? key).getD PyVal.none
          out ++ [(key, match val with
                        | PyVal.obj n fs => pyDump (PyVal.obj n fs)
                        | v => v)])
      []

/-- The result dict `{"state_delta": ..., "content": ...}` returned by
`MasterOrchestrator._run_agent`. -/
structure RunResult where
  state_delta : PyVal
  content : PyVal
  deriving Repr

/-- `raw.get(k) or default-""` (the `or ""` coalescing used for contents). -/
def getOrEmptyStr (kvs : List (String × PyVal)) (k : String) : PyVal :=
  let v := pyGetD kvs k
  if v.truthy then v else PyVal.str ""

/-- `value or []` coalescing to an empty list. -/
def orEmptyList (v : PyVal) : PyVal :=
  if v.truthy then v else PyVal.list []

/-- `MasterOrchestrator._run_agent` for `project_architect`: build the
input payload, call the agent, extract a state delta (falling back to the
raw `architecture` value), and return it with the summary as content.
Any exception yields `None` (`Option.none`). -/
def runArchitect (ag : Agent) (context : List (String × PyVal))
    (user_input : String) : Option RunResult :=
  let req := pyGetD context "requirements"
  let req_dict : PyVal :=
    match req with
    | PyVal.dict kvs => PyVal.dict kvs
    | PyVal.obj n fs => pyDump (PyVal.obj n fs)
    | _ => PyVal.dict []
  let input_data := PyVal.dict
    [("requirements", req_dict),
     ("existing_architecture", pyGetD context "architecture"),
     ("user_request", PyVal.str user_input)]
  match ag.process input_data with
  | Except.error _ => Option.none
  | Except.ok raw =>
    match raw with
    | PyVal.dict kvs =>
      let delta0 := pyGetD kvs "state_delta"
      let delta :=
        if delta0.truthy then delta0
        else
          match pyGet kvs "architecture" with
          | some PyVal.none => delta0
          | some v => PyVal.dict [("architecture", v)]
          | Option.none => delta0
      some { state_delta := delta, content := getOrEmptyStr kvs "summary" }
    | _ => Option.none

/-- The `RequirementsState(...)` built by `_run_agent` for the collector
from the dumped requirements fragment (unset fields keep their defaults).
Building it concatenates the `functional`/`non_functional` lists, so a
non-list value there raises and the task is skipped. -/
def buildRequirementsState (req : PyVal) : Except String PyVal :=
  let mk := fun (kf tc : PyVal) =>
    PyVal.obj "RequirementsState"
      [("project_type", PyVal.none), ("target_users", PyVal.none),
       ("key_features", kf), ("technical_constraints", tc),
       ("business_goals", PyVal.list []), ("timeline", PyVal.none),
       ("budget", PyVal.none), ("is_complete", PyVal.bool false),
       ("progress", PyVal.int 0)]
  match req with
  | PyVal.dict kvs =>
    match orEmptyList (pyGetD kvs "functional"),
          orEmptyList (pyGetD kvs "non_functional"),
          orEmptyList (pyGetD kvs "constraints") with
    | PyVal.list fs, PyVal.list nfs, PyVal.list cs =>
      Except.ok (mk (PyVal.list (fs ++ nfs)) (PyVal.list cs))
    | _, _, _ => Except.error "TypeError"
  | PyVal.obj _ fields =>
    match orEmptyList (pyGetD fields "functional"),
          orEmptyList (pyGetD fields "non_functional"),
          orEmptyList (pyGetD fields "constraints") with
    | PyVal.list fs, PyVal.list nfs, PyVal.list cs =>
      Except.ok (mk (PyVal.list (fs ++ nfs)) (PyVal.list cs))
    | _, _, _ => Except.error "TypeError"
  | _ => Except.ok (mk (PyVal.list []) (PyVal.list []))

/-- `MasterOrchestrator._run_agent` for `requirements_collector`. -/
def runCollector (ag : Agent) (context : List (String × PyVal))
    (user_input : String) : Option RunResult :=
  match buildRequirementsState (pyGetD context "requirements") with
  | Except.error _ => Option.none
  | Except.ok rs =>
    let history := orEmptyList (pyGetD context "conversation_history")
    match ag.processMessage user_input rs history with
    | Except.error _ => Option.none
    | Except.ok raw =>
      match raw with
      | PyVal.dict kvs =>
        match pyGet kvs "requirements" with
        | Option.none =>
          some { state_delta := PyVal.dict [], content := getOrEmptyStr kvs "response" }
        | some PyVal.none =>
          some { state_delta := PyVal.dict [], content := getOrEmptyStr kvs "response" }
        | some req_out =>
          let rs_dump : List (String × PyVal) :=
            match pyDump req_out with
            | PyVal.dict ds => match req_out with
                               | PyVal.obj _ _ => ds
                               | _ => []
            | _ => []
          let delta := PyVal.dict
            [("requirements", PyVal.dict
              [("functional", orEmptyList (pyGetD rs_dump "key_features")),
               ("non_functional", PyVal.list []),
               ("constraints", orEmptyList (pyGetD rs_dump "technical_constraints")),
               ("user_stories", PyVal.list []),
               ("gaps", PyVal.list [])])]
          some { state_delta := delta, content := getOrEmptyStr kvs "response" }
      | _ => Option.none

/-- `MasterOrchestrator._run_agent`: dispatch on the agent id; the
`execution_planner`, `mockup_agent` and `exporter` adapters are unwired
placeholders returning `None`, as is any unknown id. -/
def runAgent (ag : Agent) (agent_id : String) (context : List (String × PyVal))
    (user_input : String) : Option RunResult :=
  if agent_id = "project_architect" then runArchitect ag context user_input
  else if agent_id = "requirements_collector" then runCollector ag context user_input
  else Option.none

/-- `.items()` of a runtime value that must be a dict (`StateManager.update`
iterates the delta); anything else raises. -/
def dictItems : PyVal → Except String (List (String × PyVal))
  | PyVal.dict kvs => Except.ok kvs
  | _ => Except.error "AttributeError: delta is not a dict"

/-- The `for task in plan.tasks` loop of `process_request`: skip tasks with
no registered agent and tasks whose adapter returned `None` or raised;
otherwise merge the returned state delta, advance the session phase per
`PHASE_TRANSITION_MAP`, and record the result. -/
def runTasks (getf : AdapterGet) (reg : Registry) (sid user_input : String)
    (now : Int) :
    List Task → ProjectState → World → List RunResult →
    Except String (ProjectState × World × List RunResult)
  | [], ps, w, results => Except.ok (ps, w, results)
  | task :: rest, ps, w, results =>
    match reg task.agent_id with
    | Option.none => runTasks getf reg sid user_input now rest ps w results
    | some ag =>
      match runAgent ag task.agent_id (extractContext ps task.required_context)
          user_input with
      | Option.none => runTasks getf reg sid user_input now rest ps w results
      | some result =>
        (if result.state_delta.truthy then
          (dictItems result.state_delta).bind
            (fun items => smUpdate getf w sid items now)
         else Except.ok (ps, w)).bind
          (fun (psw : ProjectState × World) =>
            (match phaseTransitionMap task.agent_id with
             | some next_phase =>
               smUpdate getf psw.2 sid [("current_phase", PyVal.str next_phase)] now
             | Option.none => Except.ok psw).bind
              (fun (psw2 : ProjectState × World) =>
                runTasks getf reg sid user_input now rest psw2.1 psw2.2
                  (results ++ [result])))

/-- `MasterOrchestrator._synthesize_response`: join the non-empty stripped
contents, with fallbacks for no results and no content.  A truthy non-string
content would raise at `.strip()`. -/
def synthesizeResponse (results : List RunResult) : Except String String :=
  if results.isEmpty then Except.ok "No agents ran."
  else
    let step : List String → RunResult → Except String (List String) :=
      fun parts r =>
        let c := if r.content.truthy then r.content else PyVal.str ""
        match c with
        | PyVal.str s =>
          Except.ok (if s == "" then parts else parts ++ [pyStrip s])
        | _ => Except.error "AttributeError: content has no strip"
    (results.foldlM step ([] : List String)).map
      (fun parts =>
        if parts.isEmpty then "Done." else String.intercalate " " parts)

/-- The response dict of `process_request`. -/
structure Response where
  message : String
  state_snapshot : Option PyVal
  artifacts : List RunResult
  intent : Option IntentResult
  plan : Option (List Task)
  deriving Repr

/-! ## Manual mode (spec §6) — modelled from the spec

The snapshot's `master_agent.py` has no manual-mode branch; only its tests
and callers exist in the repository.  The definitions below model the
missing part from the spec's words. -/

/-- Modelled from the spec: the `opts` argument of the public orchestrator
operation, `opts.mode = "manual"` with `opts.selectedCapabilityId`. -/
structure Opts where
  mode : Option String := Option.none
  selectedCapabilityId : Option String := Option.none

/-- The transcript append shared by every successful run: exactly one user
entry and one assistant entry. -/
def appendTurns (ps2 : ProjectState) (hist : List PyVal)
    (user_input message : String) : ProjectState :=
  { ps2 with conversation_history := PyVal.list (hist ++
      [PyVal.dict [("role", PyVal.str "user"), ("content", PyVal.str user_input)],
       PyVal.dict [("role", PyVal.str "assistant"), ("content", PyVal.str message)]]) }

/-- Modelled from the spec: the session record persisted by a manual-mode
request carries `{mode:"manual", selectedCapabilityId}` along with the
state snapshot. -/
def manualRecord (cid : String) (st : ProjectState) : PyVal :=
  PyVal.dict (("mode", PyVal.str "manual") ::
    ("selectedCapabilityId", PyVal.str cid) ::
    (match st.dump with
     | PyVal.dict kvs => kvs
     | _ => []))

/-- Whether a persisted record carries the manual-mode marker keys. -/
def manualMarker (cid : String) : PyVal → Bool
  | PyVal.dict kvs =>
    (match pyGet kvs "mode" with
     | some (PyVal.str m) => m == "manual"
     | _ => false) &&
    (match pyGet kvs "selectedCapabilityId" with
     | some (PyVal.str c) => c == cid
     | _ => false)
  | _ => false

/-- Modelled from the spec: the manual-mode branch.  The plan is exactly
the selected capability (with its declared `requires` as context), the
reported intent is the literal label `"manual"`, and the manual selection
is persisted with the session record; task execution, synthesis, the
transcript append and cache/persistence mirror `process_request`. -/
def manualRun (getf : AdapterGet) (reg : Registry) (user_input sid cid : String)
    (now : Int) (ps : ProjectState) (w1 : World) :
    Except String (Response × World) :=
  (runTasks getf reg sid user_input now
    [{ agent_id := cid,
       required_context := ((getAgentById cid).map AgentEntry.requires).getD [] }]
    ps w1 []).bind
    (fun (psw : ProjectState × World × List RunResult) =>
      (synthesizeResponse psw.2.2).bind
        (fun message =>
          (match psw.1.conversation_history with
           | PyVal.list xs => Except.ok xs
           | v => if v.truthy then Except.error "TypeError: history not a list"
                  else Except.ok []).map
            (fun hist =>
              ({ message := message,
                 state_snapshot :=
                   some (appendTurns psw.1 hist user_input message).dump,
                 artifacts := psw.2.2,
                 intent := some { primary_intent := "manual",
                                  requires_agents := [cid], confidence := 1 },
                 plan := some [{ agent_id := cid,
                                 required_context :=
                                   ((getAgentById cid).map AgentEntry.requires).getD [] }] },
               { cache := cachePut psw.2.1.cache sid
                   (appendTurns psw.1 hist user_input message),
                 db := storeSave psw.2.1.db sid
                   (manualRecord cid
                     (appendTurns psw.1 hist user_input message)) }))))

/-- Modelled from the spec: the automatic path of the orchestrator with a
pluggable classifier and plan builder — the shipped `process_request`
body, classified and planned by the supplied functions. -/
def autoRun (classify : String → PyVal → IntentResult)
    (planBuild : IntentResult → ProjectState → List Task)
    (getf : AdapterGet) (reg : Registry) (user_input sid : String) (now : Int)
    (ps : ProjectState) (w1 : World) : Except String (Response × World) :=
  if (planBuild (classify (pyStrip user_input) ps.current_phase) ps).isEmpty then
    Except.ok
      ({ message := "No plan or state.", state_snapshot := some ps.dump,
         artifacts := [],
         intent := some (classify (pyStrip user_input) ps.current_phase),
         plan := some (planBuild (classify (pyStrip user_input) ps.current_phase) ps) },
       w1)
  else
    (runTasks getf reg sid user_input now
      (planBuild (classify (pyStrip user_input) ps.current_phase) ps) ps w1 []).bind
      (fun (psw : ProjectState × World × List RunResult) =>
        (synthesizeResponse psw.2.2).bind
          (fun message =>
            (match psw.1.conversation_history with
             | PyVal.list xs => Except.ok xs
             | v => if v.truthy then Except.error "TypeError: history not a list"
                    else Except.ok []).map
              (fun hist =>
                ({ message := message,
                   state_snapshot :=
                     some (appendTurns psw.1 hist user_input message).dump,
                   artifacts := psw.2.2,
                   intent := some (classify (pyStrip user_input) ps.current_phase),
                   plan := some (planBuild (classify (pyStrip user_input)
                     ps.current_phase) ps) },
                 { cache := cachePut psw.2.1.cache sid
                     (appendTurns psw.1 hist user_input message),
                   db := storeSave psw.2.1.db sid
                     (appendTurns psw.1 hist user_input message).dump }))))

/-- Modelled from the spec: `processRequest(utterance, sessionId, opts)`.
`opts.mode = "manual"` with a selected capability id takes the manual
branch; anything else takes the automatic path driven by the supplied
classifier and plan builder. -/
def processRequestOpts (classify : String → PyVal → IntentResult)
    (planBuild : IntentResult → ProjectState → List Task)
    (getf : AdapterGet) (reg : Registry) (w : World)
    (user_input sid : String) (now : Int) (opts : Opts) :
    Except String (Response × World) :=
  match smLoad getf w sid now with
  | Except.error e =>
    Except.ok
      ({ message := "Error: " ++ e, state_snapshot := Option.none,
         artifacts := [], intent := Option.none, plan := Option.none }, w)
  | Except.ok (ps, w1) =>
    match opts.mode, opts.selectedCapabilityId with
    | some "manual", some cid => manualRun getf reg user_input sid cid now ps w1
    | _, _ => autoRun classify planBuild getf reg user_input sid now ps w1


/-- `MasterOrchestrator.process_request`: the compiled LangGraph pipeline
(load → rule-based classify → plan) followed by the task loop, response
synthesis, the transcript append and the final persist.  A load failure is
caught by the graph's `load_state` node and surfaces as an error response;
an exception anywhere later propagates (`Except.error`). -/
def processRequest (getf : AdapterGet) (reg : Registry) (w : World)
    (user_input sid : String) (now : Int) : Except String (Response × World) :=
  match smLoad getf w sid now with
  | Except.error e =>
    Except.ok
      ({ message := "Error: " ++ e, state_snapshot := Option.none,
         artifacts := [], intent := Option.none, plan := Option.none }, w)
  | Except.ok pw =>
    autoRun analyzeRuleBased planFn getf reg user_input sid now pw.1 pw.2

/-- A fresh session for the manual-mode scenario. -/
def c4State : ProjectState := defaultProjectState "s4" 0

def c4World : World := { cache := [("s4", c4State)], db := [] }

/-- The session state after the manual-mode turn's transcript append. -/
def c4St3 : ProjectState :=
  appendTurns c4State [] "export everything" "No agents ran."

/-- The manual-mode scenario's response (the exporter has no adapter, so no
agents run). -/
def c4Resp : Response :=
  { message := "No agents ran.",
    state_snapshot := some c4St3.dump,
    artifacts := [],
    intent := some { primary_intent := "manual",
                     requires_agents := ["exporter"], confidence := 1 },
    plan := some [{ agent_id := "exporter", required_context := ["*"] }] }

/-- The world after the manual-mode turn. -/
def c4World2 : World :=
  { cache := cachePut c4World.cache "s4" c4St3,
    db := storeSave c4World.db "s4" (manualRecord "exporter" c4St3) }

/-! ## Transcript bookkeeping (claim C2's vocabulary) -/

/-- The root segment of a (possibly dotted) delta key: the attribute
`_apply_delta` actually assigns through. -/
def keyRoot (k : String) : String :=
  if !(strIn "." k) then k
  else
    match k.splitOn "." with
    | [] => k
    | r :: _ => r

/-- A state delta that never assigns through `conversation_history`. -/
def deltaKeysOk : PyVal → Bool
  | PyVal.dict kvs => kvs.all (fun kv => !(keyRoot kv.1 == "conversation_history"))
  | _ => true

/-- The user transcript entry appended by a processed turn. -/
def userEntry (u : String) : PyVal :=
  PyVal.dict [("role", PyVal.str "user"), ("content", PyVal.str u)]

/-- The assistant transcript entry appended by a processed turn. -/
def asstEntry (m : String) : PyVal :=
  PyVal.dict [("role", PyVal.str "assistant"), ("content", PyVal.str m)]

/-- Whether a transcript entry is a dict whose `role` is the given label. -/
def roleIs (e : PyVal) (r : String) : Bool :=
  match e with
  | PyVal.dict kvs =>
    match pyGet kvs "role" with
    | some (PyVal.str s) => s == r
    | _ => false
  | _ => false

/-- Strict user/assistant alternation from the given parity (`true` means
the next entry must be a user entry). -/
def altRoles : List PyVal → Bool → Bool
  | [], _ => true
  | e :: rest, isUser =>
    roleIs e (if isUser then "user" else "assistant") && altRoles rest (!isUser)

/-- The conversation history of the session as cached in a world. -/
def sessionHist (w : World) (sid : String) : List PyVal :=
  match cacheGet w.cache sid with
  | some st =>
    match st.conversation_history with
    | PyVal.list xs => xs
    | _ => []
  | Option.none => []

/-- The reachable world shapes for one session: either untouched (no cache
entry and no persisted record) or cached with a list-valued, even-length
conversation history. -/
def sessionOk (sid : String) (w : World) : Prop :=
  (cacheGet w.cache sid = Option.none ∧ pyGet w.db sid = Option.none) ∨
  (∃ st xs, cacheGet w.cache sid = some st ∧
    st.conversation_history = PyVal.list xs ∧ xs.length % 2 = 0)

/-- Whether a request on this world gets past load/classify/plan (load
succeeds and the emitted plan is non-empty), i.e. is *processed*. -/
def turnExecuted (getf : AdapterGet) (u sid : String) (now : Int)
    (w : World) : Bool :=
  match smLoad getf w sid now with
  | Except.error _ => false
  | Except.ok pw =>
    !(planFn (analyzeRuleBased (pyStrip u) pw.1.current_phase) pw.1).isEmpty

/-- N sequential requests on one session. -/
def processTurns (getf : AdapterGet) (reg : Registry) (sid : String)
    (now : Int) : List String → World → Except String World
  | [], w => Except.ok w
  | u :: us, w =>
    (processRequest getf reg w u sid now).bind
      (fun rw => processTurns getf reg sid now us rw.2)

/-- Every request of the sequence is processed (gets past
load/classify/plan). -/
def allExecuted (getf : AdapterGet) (reg : Registry) (sid : String)
    (now : Int) : List String → World → Bool
  | [], _ => true
  | u :: us, w =>
    turnExecuted getf u sid now w &&
    (match processRequest getf reg w u sid now with
     | Except.ok rw => allExecuted getf reg sid now us rw.2
     | Except.error _ => false)

/-- The empty registry: every adapter is unavailable, every task is
skipped. -/
def c2Reg : Registry := fun _ => Option.none

/-- The weight `_calculate_weighted_score` uses for a named dimension:
the declared criterion weight, or the equal-share default. -/
def criterionWeight (criteria : Criteria) (default : ℚ) (dim : String) : ℚ :=
  ((criteria.find? (fun kv => kv.1 = dim)).map (fun kv => kv.2)).getD default

/-- C6, part of the statement: the spec's weighted-average formula over the
four fixed validators, written from the spec's words. -/
def specCombinedScore (output : PyVal) (criteria : Criteria) : ℚ :=
  let w := criterionWeight criteria (1/4)
  let total := w "feasibility" + w "clarity" + w "completeness" + w "consistency"
  ((feasibilityCheck output).score * w "feasibility" +
   (clarityCheck output).score * w "clarity" +
   (completenessCheck output).score * w "completeness" +
   (consistencyCheck output).score * w "consistency") / total

/-- The spec's description of delta application for one key, written from
the spec's words: list-valued fields extend (scalars wrapped first),
map-valued fields shallow-upsert, nested record fields merge field by field
into a copy, anything else is replaced outright. -/
def specMergedValue (current value : PyVal) : PyVal :=
  match current, value with
  | PyVal.list xs, v =>
    PyVal.list (xs ++ (match v with | PyVal.list ys => ys | w => [w]))
  | PyVal.dict kvs, PyVal.dict u => PyVal.dict (upsertAll kvs u)
  | PyVal.obj name fields, PyVal.dict u => PyVal.obj name (upsertAll fields u)
  | _, v => v

/-- Maximum keyword/trigger score of the phase-compatible patterns of `l`,
accumulated from `b`. -/
def maxFrom (phase : PyVal) (text : String) (b : Nat) (l : List IntentPattern) : Nat :=
  l.foldl
    (fun m p => if patternCompatible phase p then max m (patternScore text p) else m)
    b

/-- The ordering invariant of a (partial) plan: every member whose store
entry has non-wildcard requirements has, for each required artifact absent
from the session, that artifact's producer at a strictly earlier index. -/
def UpstreamOrdered (has : String → Bool) (l : List String) : Prop :=
  ∀ aid entry art producer,
    aid ∈ l → getAgentById aid = some entry →
    entry.requires.contains "*" = false →
    art ∈ entry.requires → has art = false →
    getProducerForArtifact art = some producer →
    producer ∈ l ∧ l.indexOf producer < l.indexOf aid

/-- Guarded append of `requirements_collector` (its `requires` is empty). -/
def insRC (acc : List String) : List String :=
  if acc.contains "requirements_collector" then acc
  else acc ++ ["requirements_collector"]

/-- Guarded insertion of `project_architect`, pulling in the requirements
producer first when the artifact is absent. -/
def insPA (has : String → Bool) (acc : List String) : List String :=
  if acc.contains "project_architect" then acc
  else (if has "requirements" then acc else insRC acc) ++ ["project_architect"]

/-- Guarded insertion of `execution_planner`. -/
def insEP (has : String → Bool) (acc : List String) : List String :=
  if acc.contains "execution_planner" then acc
  else (if has "architecture" then acc else insPA has acc) ++ ["execution_planner"]

/-- Guarded insertion of `mockup_agent`. -/
def insMA (has : String → Bool) (acc : List String) : List String :=
  if acc.contains "mockup_agent" then acc
  else
    (let a1 := if has "requirements" then acc else insRC acc
     if has "architecture" then a1 else insPA has a1) ++ ["mockup_agent"]

/-- Guarded append of `exporter` (wildcard requirement, no recursion). -/
def insEXP (acc : List String) : List String :=
  if acc.contains "exporter" then acc else acc ++ ["exporter"]

/-- Guarded append of an id unknown to the store. -/
def insOther (aid : String) (acc : List String) : List String :=
  if acc.contains aid then acc else acc ++ [aid]

/-- Dispatch form of one `_resolve_upstream` step at full store fuel. -/
def insStep (has : String → Bool) (acc : List String) (aid : String) : List String :=
  if aid = "requirements_collector" then insRC acc
  else if aid = "project_architect" then insPA has acc
  else if aid = "execution_planner" then insEP has acc
  else if aid = "mockup_agent" then insMA has acc
  else if aid = "exporter" then insEXP acc
  else insOther aid acc

/-- The concrete store entries, used for inversion. -/
def entryRC : AgentEntry := AGENT_STORE.get ⟨0, by norm_num [AGENT_STORE]⟩
def entryPA : AgentEntry := AGENT_STORE.get ⟨1, by norm_num [AGENT_STORE]⟩
def entryEP : AgentEntry := AGENT_STORE.get ⟨2, by norm_num [AGENT_STORE]⟩
def entryMA : AgentEntry := AGENT_STORE.get ⟨3, by norm_num [AGENT_STORE]⟩
def entryEXP : AgentEntry := AGENT_STORE.get ⟨4, by norm_num [AGENT_STORE]⟩

/-- A session in phase `requirements_complete` whose requirements artifact
is still empty. -/
def exampleStateNoReq : ProjectState :=
  { defaultProjectState "s" 0 with
    current_phase := PyVal.str "requirements_complete" }

/-- The architect's raw result in the C1 scenario: a summary plus an
architecture fragment, with the state delta the shipped
`ProjectArchitectAgent.process` builds (`{"architecture": ...}`). -/
def c1Raw : List (String × PyVal) :=
  [("summary", PyVal.str "Architecture generated"),
   ("architecture", PyVal.dict
     [("tech_stack", PyVal.dict [("backend", PyVal.str "Python")])]),
   ("state_delta", PyVal.dict
     [("architecture", PyVal.dict
       [("tech_stack", PyVal.dict [("backend", PyVal.str "Python")])])])]

def c1Agent : Agent :=
  { process := fun _ => Except.ok (PyVal.dict c1Raw),
    processMessage := fun _ _ _ => Except.error "unused" }

/-- The reference registry for the scenario: only the architect is wired. -/
def c1Reg : Registry := fun aid =>
  if aid = "project_architect" then some c1Agent else Option.none

/-- A session in phase `requirements_complete` with a populated
requirements artifact and no architecture yet. -/
def c1State : ProjectState :=
  { defaultProjectState "s1" 0 with
    current_phase := PyVal.str "requirements_complete",
    requirements := PyVal.obj "Requirements"
      [("functional", PyVal.list [PyVal.str "Login"]),
       ("non_functional", PyVal.list []),
       ("constraints", PyVal.list []),
       ("user_stories", PyVal.list []),
       ("gaps", PyVal.list [])] }

def c1World : World := { cache := [("s1", c1State)], db := [] }

/-- The observable outcome of one task against a registry: no adapter, a
skipped/failed adapter, or a result. -/
def taskOutcome (reg : Registry) (u : String) (t : Task) (ps : ProjectState) :
    Option RunResult :=
  match reg t.agent_id with
  | Option.none => Option.none
  | some ag => runAgent ag t.agent_id (extractContext ps t.required_context) u

/-- An adapter whose invocation raises (`process_message` throws): the
`except Exception: return None` path of `_run_agent`. -/
def c9Collector : Agent :=
  { process := fun _ => Except.error "unused",
    processMessage := fun _ _ _ => Except.error "RuntimeError: LLM unavailable" }

/-- The architect's successful raw output for the C9 scenario. -/
def c9Raw : List (String × PyVal) :=
  [("summary", PyVal.str "Architecture generated"),
   ("architecture", PyVal.dict
     [("tech_stack", PyVal.dict [("backend", PyVal.str "Python")])]),
   ("state_delta", PyVal.dict
     [("architecture", PyVal.dict
       [("tech_stack", PyVal.dict [("backend", PyVal.str "Python")])])])]

/-- A registry wiring a raising collector and a succeeding architect. -/
def c9Reg : Registry := fun aid =>
  if aid = "requirements_collector" then some c9Collector
  else if aid = "project_architect" then
    some { process := fun _ => Except.ok (PyVal.dict c9Raw),
           processMessage := fun _ _ _ => Except.error "unused" }
  else Option.none

/-- A session in phase `requirements_complete` whose requirements artifact
is still empty, so the collector is re-inserted upstream of the architect. -/
def c9State : ProjectState :=
  { defaultProjectState "s9" 0 with
    current_phase := PyVal.str "requirements_complete" }

def c9World : World := { cache := [("s9", c9State)], db := [] }

/-- The final world of the two-turn reference run for C2. -/
def c2WorldF : World :=
  (processTurns inMemGet c2Reg "s2" 7 ["hello", "hello again"]
    { cache := [], db := [] }).toOption.getD { cache := [], db := [] }

/-! # Theorems

The remainder of the file settles the frozen claims against the embedding
above. -/

/-- C6 — `ReviewProtocol.validate` combines the four validators' scores by
the weighted average (declared weight per named criterion, default
`1/(number of validators)` for the rest, normalised by the weight actually
used), and the output is valid iff that combined score reaches the
configured minimum and no validator raised an issue. -/
theorem claim_C6_review_weighted_average (minScore : ℚ) (output : PyVal)
    (criteria : Criteria)
    (hw : criterionWeight criteria (1/4) "feasibility" +
          criterionWeight criteria (1/4) "clarity" +
          criterionWeight criteria (1/4) "completeness" +
          criterionWeight criteria (1/4) "consistency" ≠ 0) :
    (reviewValidate minScore output criteria).score = specCombinedScore output criteria
    ∧ ((reviewValidate minScore output criteria).is_valid = true ↔
        specCombinedScore output criteria ≥ minScore ∧
        (feasibilityCheck output).issues = [] ∧
        (clarityCheck output).issues = [] ∧
        (completenessCheck output).issues = [] ∧
        (consistencyCheck output).issues = []) := by
  have hscore :
      (reviewValidate minScore output criteria).score = specCombinedScore output criteria := by
    simp only [reviewValidate, validatorRun, calculateWeightedScore, specCombinedScore,
      criterionWeight, List.map_cons, List.map_nil, List.isEmpty_cons,
      List.foldl_cons, List.foldl_nil, List.length_cons, List.length_nil]
    rw [if_neg (by simp)]
    have h4 : (1 / (max 1 (0 + 1 + 1 + 1 + 1) : ℕ) : ℚ) = 1/4 := by norm_num
    rw [h4]
    simp only [zero_add]
    rw [if_neg]
    simpa [criterionWeight] using hw
  have hfb : (reviewValidate minScore output criteria).feedback =
      (feasibilityCheck output).issues ++ (clarityCheck output).issues ++
      (completenessCheck output).issues ++ (consistencyCheck output).issues := by
    simp [reviewValidate, validatorRun, consistencyCheck]
  have hvalid : (reviewValidate minScore output criteria).is_valid =
      (decide ((reviewValidate minScore output criteria).score ≥ minScore) &&
       (reviewValidate minScore output criteria).feedback.isEmpty) := by
    simp [reviewValidate]
  refine ⟨hscore, ?_⟩
  rw [hvalid, hfb, hscore]
  simp only [Bool.and_eq_true, decide_eq_true_eq, List.isEmpty_iff,
    List.append_eq_nil]
  constructor
  · rintro ⟨h1, ⟨⟨⟨h2, h3⟩, h4⟩, h5⟩⟩
    exact ⟨h1, h2, h3, h4, h5⟩
  · rintro ⟨h1, h2, h3, h4, h5⟩
    exact ⟨h1, ⟨⟨⟨h2, h3⟩, h4⟩, h5⟩⟩

/-- Unfolding of the `is_valid` field of a review result. -/
theorem reviewValidate_is_valid_def (minScore : ℚ) (output : PyVal)
    (criteria : Criteria) :
    (reviewValidate minScore output criteria).is_valid =
      (decide ((reviewValidate minScore output criteria).score ≥ minScore) &&
       (reviewValidate minScore output criteria).feedback.isEmpty) := rfl

/-- Any raised issue makes a review invalid, regardless of the score. -/
theorem reviewValidate_invalid_of_feedback (minScore : ℚ) (output : PyVal)
    (criteria : Criteria)
    (h : (reviewValidate minScore output criteria).feedback.isEmpty = false) :
    (reviewValidate minScore output criteria).is_valid = false := by
  rw [reviewValidate_is_valid_def, h, Bool.and_false]

/-- Witness for C6: the weighted-average characterisation applied to a
concrete review (default minimum, empty criteria map, a non-blank string
output). -/
theorem claim_C6_witness :
    (reviewValidate (3/4) (PyVal.str "ok") []).score = specCombinedScore (PyVal.str "ok") []
    ∧ ((reviewValidate (3/4) (PyVal.str "ok") []).is_valid = true ↔
        specCombinedScore (PyVal.str "ok") [] ≥ 3/4 ∧
        (feasibilityCheck (PyVal.str "ok")).issues = [] ∧
        (clarityCheck (PyVal.str "ok")).issues = [] ∧
        (completenessCheck (PyVal.str "ok")).issues = [] ∧
        (consistencyCheck (PyVal.str "ok")).issues = []) :=
  claim_C6_review_weighted_average (3/4) (PyVal.str "ok") []
    (by norm_num [criterionWeight])

/-- C5 — an agent whose generated output never passes review performs
exactly three generation attempts — each retry fed the corrective input
carrying the failed output and the feedback strings — and
`BaseAgent.execute` then returns the *last* attempt's output with metadata
status `"degraded"` and `review_failures = 3`.  The model of the loop is a
total function, reflecting that the loop body raises nothing. -/
theorem claim_C5_review_retry_degraded (name : String) (minScore : ℚ)
    (criteria : Criteria) (generate : PyVal → PyVal) (input : PyVal)
    (h1 : (reviewValidate minScore (generate input) criteria).is_valid = false)
    (h2 : (reviewValidate minScore
            (generate (buildCorrectionPrompt input (generate input)
              (reviewValidate minScore (generate input) criteria).feedback))
            criteria).is_valid = false)
    (h3 : (reviewValidate minScore
            (generate (buildCorrectionPrompt
              (buildCorrectionPrompt input (generate input)
                (reviewValidate minScore (generate input) criteria).feedback)
              (generate (buildCorrectionPrompt input (generate input)
                (reviewValidate minScore (generate input) criteria).feedback))
              (reviewValidate minScore
                (generate (buildCorrectionPrompt input (generate input)
                  (reviewValidate minScore (generate input) criteria).feedback))
                criteria).feedback))
            criteria).is_valid = false) :
    baseAgentExecute name minScore criteria generate input =
      { content := generate (buildCorrectionPrompt
          (buildCorrectionPrompt input (generate input)
            (reviewValidate minScore (generate input) criteria).feedback)
          (generate (buildCorrectionPrompt input (generate input)
            (reviewValidate minScore (generate input) criteria).feedback))
          (reviewValidate minScore
            (generate (buildCorrectionPrompt input (generate input)
              (reviewValidate minScore (generate input) criteria).feedback))
            criteria).feedback),
        state_delta := [],
        metadata := [("agent", PyVal.str name),
                     ("status", PyVal.str "degraded"),
                     ("review_failures", PyVal.int 3)] } := by
  simp only [baseAgentExecute, executeLoop, h1, h2, h3, Bool.false_eq_true,
    if_false]
  norm_num

/-- Witness for C5: a generator that always returns a missing output (so
the feasibility validator always raises an issue) is degraded after exactly
three attempts. -/
theorem claim_C5_witness :
    baseAgentExecute "agent" (3/4) [] (fun _ => PyVal.none) (PyVal.str "go") =
      { content := PyVal.none,
        state_delta := [],
        metadata := [("agent", PyVal.str "agent"),
                     ("status", PyVal.str "degraded"),
                     ("review_failures", PyVal.int 3)] } :=
  by
  have hbad : ∀ m : ℚ, (reviewValidate m PyVal.none []).feedback.isEmpty = false := by
    intro m
    rfl
  exact claim_C5_review_retry_degraded "agent" (3/4) [] (fun _ => PyVal.none)
    (PyVal.str "go")
    (reviewValidate_invalid_of_feedback _ PyVal.none _ (hbad _))
    (reviewValidate_invalid_of_feedback _ PyVal.none _ (hbad _))
    (reviewValidate_invalid_of_feedback _ PyVal.none _ (hbad _))

/-! ### C7 / C10 — `StateManager.update` -/

/-- The source's runtime-type dispatch implements the spec's merge policy:
the two case orders test disjoint constructors. -/
theorem mergedValue_eq_spec (current value : PyVal) :
    mergedValue current value = specMergedValue current value := by
  cases current <;> cases value <;> rfl

/-- No declared field name contains a dot. -/
theorem declared_no_dot {k : String}
    (hk : ProjectState.declaredFields.contains k = true) :
    strIn "." k = false := by
  have hmem : k ∈ ProjectState.declaredFields := by
    simpa using hk
  simp only [ProjectState.declaredFields, List.mem_cons, List.mem_singleton,
    List.not_mem_nil, or_false] at hmem
  rcases hmem with rfl | rfl | rfl | rfl | rfl | rfl | rfl | rfl | rfl | rfl | rfl <;> rfl

/-- `_merge_or_set` on a declared field merges the current value and
re-assigns the field. -/
theorem mergeOrSet_declared (st : ProjectState) (k : String) (v current : PyVal)
    (hc : ProjectState.declaredFields.contains k = true)
    (hcur : st.getField? k = some current) :
    mergeOrSet st k v = Except.ok (st.setField k (mergedValue current v)) := by
  simp only [mergeOrSet, ProjectState.hasAttr, hc, Bool.true_or,
    Bool.not_true, Bool.false_eq_true, if_false, if_true, hcur]

/-- `updated_at` after `setField "updated_at"`. -/
theorem setField_updated_at (st : ProjectState) (v : PyVal) :
    (st.setField "updated_at" v).updated_at = v := by
  rfl

/-- C7 — one delta key applied through `StateManager.update` follows the
runtime-type merge policy (lists extend with scalars wrapped, plain dicts
shallow-upsert, pydantic fragments merge field-by-field into a copy,
anything else is replaced), and the update stamps `updated_at`, persists
the full dump and refreshes the cache entry. -/
theorem claim_C7_state_update_merge_policy (w : World) (sid k : String)
    (v current : PyVal) (now : Int) (st : ProjectState) (w1 : World)
    (hload : smLoad inMemGet w sid now = Except.ok (st, w1))
    (hc : ProjectState.declaredFields.contains k = true)
    (hcur : st.getField? k = some current) :
    smUpdate inMemGet w sid [(k, v)] now =
      Except.ok
        (let st3 := (st.setField k (specMergedValue current v)).setField
          "updated_at" (PyVal.int now)
         (st3, { cache := cachePut w1.cache sid st3,
                 db := storeSave w1.db sid st3.dump }))
    ∧ ((st.setField k (specMergedValue current v)).setField
        "updated_at" (PyVal.int now)).updated_at = PyVal.int now := by
  constructor
  · simp only [smUpdate, hload, Except.bind, List.foldlM, applyDelta,
      declared_no_dot hc, Bool.not_false, if_true,
      mergeOrSet_declared st k v current hc hcur, mergedValue_eq_spec]
    rfl
  · exact setField_updated_at _ _

/-- Witness for C7: extending the `mockups` list of a cached session with a
scalar delta wraps the scalar and appends it, stamps the timestamp,
persists and recaches. -/
theorem claim_C7_witness :
    (smLoad inMemGet
        { cache := [("s", defaultProjectState "s" 0)], db := [] } "s" 7 =
      Except.ok (defaultProjectState "s" 0,
        { cache := [("s", defaultProjectState "s" 0)], db := [] }))
    ∧ (smUpdate inMemGet { cache := [("s", defaultProjectState "s" 0)], db := [] }
        "s" [("mockups", PyVal.str "m1")] 7 =
      Except.ok
        (let st3 := ((defaultProjectState "s" 0).setField "mockups"
            (specMergedValue (PyVal.list []) (PyVal.str "m1"))).setField
            "updated_at" (PyVal.int 7)
         (st3, { cache := cachePut [("s", defaultProjectState "s" 0)] "s" st3,
                 db := storeSave [] "s" st3.dump }))) :=
  ⟨rfl,
   (claim_C7_state_update_merge_policy
      { cache := [("s", defaultProjectState "s" 0)], db := [] } "s" "mockups"
      (PyVal.str "m1") (PyVal.list []) 7 (defaultProjectState "s" 0)
      { cache := [("s", defaultProjectState "s" 0)], db := [] }
      rfl rfl rfl).1⟩

/-- C10's counterexample — the claim promises that *any* top-level key that
is not a declared field of `ProjectState` is silently ignored with no
error.  `"model_dump"` is not a declared field, yet a delta containing it
survives the `hasattr` guard (it is an inherited `BaseModel` method) and
pydantic's `__setattr__` then raises `ValueError`, so `update` propagates
an exception instead of ignoring the key. -/
theorem claim_C10_counterexample :
    ProjectState.declaredFields.contains "model_dump" = false ∧
    smUpdate inMemGet World.empty "s" [("model_dump", PyVal.int 5)] 0 =
      Except.error
        "ValueError: \x22ProjectState\x22 object has no field \x22model_dump\x22" :=
  ⟨rfl, rfl⟩

/-- C10 (amended) — a top-level delta key that is not an *attribute* of
`ProjectState` at all (neither a declared field nor an inherited
`BaseModel` method) is silently ignored: no error is raised on its
account, no field changes on its account, and the remaining delta keys are
applied exactly as if the key were absent.  (Keys naming non-field
attributes such as `model_dump` instead raise, per the counterexample.) -/
theorem claim_C10_unknown_key_ignored (w : World) (sid : String) (now : Int)
    (d1 d2 : List (String × PyVal)) (k : String) (v : PyVal)
    (hdot : strIn "." k = false)
    (hattr : ProjectState.hasAttr k = false) :
    smUpdate inMemGet w sid (d1 ++ (k, v) :: d2) now =
      smUpdate inMemGet w sid (d1 ++ d2) now := by
  have hstep : ∀ st : ProjectState, applyDelta st k v = Except.ok st := by
    intro st
    simp only [applyDelta, hdot, Bool.not_false, if_true, mergeOrSet, hattr,
      Bool.not_false, if_true]
  simp only [smUpdate]
  cases smLoad inMemGet w sid now with
  | error e => rfl
  | ok pr =>
    simp only [Except.bind]
    congr 1
    induction d1 generalizing pr with
    | nil =>
      simp only [List.nil_append, List.foldlM, hstep]
      rfl
    | cons hd tl ih =>
      simp only [List.cons_append, List.foldlM]
      cases applyDelta pr.1 hd.1 hd.2 with
      | error e => rfl
      | ok st2 => exact ih (st2, pr.2)

/-- Witness for C10 (amended): a delta carrying an unknown key between two
declared keys behaves exactly like the delta with the key dropped. -/
theorem claim_C10_witness :
    smUpdate inMemGet World.empty "s"
        [("project_name", PyVal.str "X"), ("totally_unknown", PyVal.int 1),
         ("current_phase", PyVal.str "discovery")] 0 =
      smUpdate inMemGet World.empty "s"
        [("project_name", PyVal.str "X"),
         ("current_phase", PyVal.str "discovery")] 0 :=
  claim_C10_unknown_key_ignored World.empty "s" 0
    [("project_name", PyVal.str "X")]
    [("current_phase", PyVal.str "discovery")]
    "totally_unknown" (PyVal.int 1) rfl rfl

/-! ### C8 — the rule-based intent classifier -/

theorem maxFrom_nil (phase : PyVal) (text : String) (b : Nat) :
    maxFrom phase text b [] = b := rfl

theorem maxFrom_cons (phase : PyVal) (text : String) (b : Nat)
    (p : IntentPattern) (l : List IntentPattern) :
    maxFrom phase text b (p :: l) =
      maxFrom phase text
        (if patternCompatible phase p then max b (patternScore text p) else b) l := by
  simp only [maxFrom, List.foldl_cons]

theorem le_maxFrom (phase : PyVal) (text : String) (l : List IntentPattern) :
    ∀ b : Nat, b ≤ maxFrom phase text b l := by
  induction l with
  | nil => intro b; simp [maxFrom_nil]
  | cons p l ih =>
    intro b
    rw [maxFrom_cons]
    by_cases hc : patternCompatible phase p
    · simp only [hc, if_true]
      exact le_trans (Nat.le_max_left _ _) (ih _)
    · simp only [hc, if_false]
      exact ih b

theorem score_le_maxFrom (phase : PyVal) (text : String) (l : List IntentPattern) :
    ∀ b : Nat, ∀ p ∈ l, patternCompatible phase p = true →
      patternScore text p ≤ maxFrom phase text b l := by
  induction l with
  | nil => intro b p hp; simp at hp
  | cons q l ih =>
    intro b p hp hcomp
    rw [maxFrom_cons]
    rcases List.mem_cons.mp hp with rfl | hp'
    · rw [hcomp, if_pos rfl]
      exact le_trans (Nat.le_max_right _ _) (le_maxFrom _ _ _ _)
    · by_cases hq : patternCompatible phase q = true
      · rw [if_pos hq]; exact ih _ p hp' hcomp
      · rw [if_neg hq]; exact ih _ p hp' hcomp

theorem maxFrom_of_all_le (phase : PyVal) (text : String) (l : List IntentPattern) :
    ∀ b : Nat,
      (∀ p ∈ l, patternCompatible phase p = true → patternScore text p ≤ b) →
      maxFrom phase text b l = b := by
  induction l with
  | nil => intro b _; rfl
  | cons q l ih =>
    intro b h
    rw [maxFrom_cons]
    by_cases hq : patternCompatible phase q = true
    · rw [if_pos hq]
      have hle := h q (List.mem_cons_self _ _) hq
      rw [Nat.max_eq_left hle]
      exact ih b (fun p hp hc => h p (List.mem_cons_of_mem _ hp) hc)
    · rw [if_neg hq]
      exact ih b (fun p hp hc => h p (List.mem_cons_of_mem _ hp) hc)

/-- The scan makes no update when every compatible score is already
dominated by the accumulator. -/
theorem fold_bestStep_no_update (phase : PyVal) (text : String)
    (l : List IntentPattern) :
    ∀ (b : Option IntentPattern × Nat),
      (∀ p ∈ l, patternCompatible phase p = true → patternScore text p ≤ b.2) →
      l.foldl (bestStep phase text) b = b := by
  induction l with
  | nil => intro b _; rfl
  | cons q l ih =>
    intro b h
    rw [List.foldl_cons]
    have hstep : bestStep phase text b q = b := by
      unfold bestStep
      by_cases hq : patternCompatible phase q = true
      · rw [if_pos hq, if_neg]
        simp only [not_lt]
        exact h q (List.mem_cons_self _ _) hq
      · rw [if_neg hq]
    rw [hstep]
    exact ih b (fun p hp hc => h p (List.mem_cons_of_mem _ hp) hc)

/-- The scan's winner: when some compatible pattern strictly beats the
accumulator score, the result carries the running maximum, held by the
*first* compatible pattern that attains it (catalog-order tie-break). -/
theorem fold_bestStep_char (phase : PyVal) (text : String)
    (l : List IntentPattern) :
    ∀ (bi : Option IntentPattern) (bs : Nat),
      (∃ p ∈ l, patternCompatible phase p = true ∧ patternScore text p > bs) →
      ∃ q,
        l.find? (fun p => patternCompatible phase p &&
          decide (patternScore text p = maxFrom phase text bs l)) = some q ∧
        l.foldl (bestStep phase text) (bi, bs) = (some q, maxFrom phase text bs l) := by
  induction l with
  | nil => intro bi bs h; simp at h
  | cons hd tl ih =>
    intro bi bs hex
    rw [List.foldl_cons, maxFrom_cons]
    by_cases hc : patternCompatible phase hd = true
    · rw [if_pos hc]
      by_cases hgt : patternScore text hd > bs
      · have hstep : bestStep phase text (bi, bs) hd =
            (some hd, patternScore text hd) := by
          unfold bestStep; rw [if_pos hc, if_pos hgt]
        rw [hstep, Nat.max_eq_right (le_of_lt hgt)]
        by_cases htl : ∃ p ∈ tl, patternCompatible phase p = true ∧
            patternScore text p > patternScore text hd
        · obtain ⟨q, hfind, hfold⟩ := ih (some hd) (patternScore text hd) htl
          refine ⟨q, ?_, hfold⟩
          obtain ⟨p0, hp0, hp0c, hp0gt⟩ := htl
          have hlt : patternScore text hd <
              maxFrom phase text (patternScore text hd) tl :=
            lt_of_lt_of_le hp0gt (score_le_maxFrom phase text tl _ p0 hp0 hp0c)
          rw [List.find?_cons_of_neg, hfind]
          simp only [hc, Bool.true_and, decide_eq_true_eq]
          exact Nat.ne_of_lt hlt
        · push_neg at htl
          have hall : ∀ p ∈ tl, patternCompatible phase p = true →
              patternScore text p ≤ patternScore text hd := by
            intro p hp hcp
            exact htl p hp hcp
          have hmax : maxFrom phase text (patternScore text hd) tl =
              patternScore text hd := maxFrom_of_all_le phase text tl _ hall
          rw [hmax]
          refine ⟨hd, ?_, ?_⟩
          · rw [List.find?_cons_of_pos]
            simp [hc]
          · exact fold_bestStep_no_update phase text tl _ hall
      · push_neg at hgt
        have hstep : bestStep phase text (bi, bs) hd = (bi, bs) := by
          unfold bestStep
          rw [if_pos hc, if_neg (by simpa using hgt)]
        rw [hstep, Nat.max_eq_left hgt]
        have htl : ∃ p ∈ tl, patternCompatible phase p = true ∧
            patternScore text p > bs := by
          obtain ⟨p, hp, hcp, hpgt⟩ := hex
          rcases List.mem_cons.mp hp with rfl | hp'
          · omega
          · exact ⟨p, hp', hcp, hpgt⟩
        obtain ⟨q, hfind, hfold⟩ := ih bi bs htl
        refine ⟨q, ?_, hfold⟩
        obtain ⟨p0, hp0, hp0c, hp0gt⟩ := htl
        have hlt : patternScore text hd < maxFrom phase text bs tl :=
          lt_of_le_of_lt hgt
            (lt_of_lt_of_le hp0gt (score_le_maxFrom phase text tl _ p0 hp0 hp0c))
        rw [List.find?_cons_of_neg, hfind]
        simp only [hc, Bool.true_and, decide_eq_true_eq]
        exact Nat.ne_of_lt hlt
    · rw [if_neg hc]
      have hstep : bestStep phase text (bi, bs) hd = (bi, bs) := by
        unfold bestStep
        rw [if_neg hc]
      rw [hstep]
      have htl : ∃ p ∈ tl, patternCompatible phase p = true ∧
          patternScore text p > bs := by
        obtain ⟨p, hp, hcp, hpgt⟩ := hex
        rcases List.mem_cons.mp hp with rfl | hp'
        · exact absurd hcp hc
        · exact ⟨p, hp', hcp, hpgt⟩
      obtain ⟨q, hfind, hfold⟩ := ih bi bs htl
      refine ⟨q, ?_, hfold⟩
      rw [List.find?_cons_of_neg, hfind]
      simp [hc]

/-- C8 — the rule-based classifier scores each phase-compatible intent by
its keyword/trigger substring hits in the lowercased utterance; the
highest-scoring intent wins, ties broken by catalog order (the winner is
the *first* pattern attaining the maximal score), with confidence
`min(1.0, 0.3 + 0.2·score)`; an empty/whitespace utterance, or a zero
score for every compatible intent, yields intent `"unknown"`, no
capabilities, confidence `0.0`. -/
theorem claim_C8_rule_based_classifier (user_input : String)
    (current_phase : PyVal) :
    (pyStrip (lowerStr user_input) = "" →
      analyzeRuleBased user_input current_phase =
        { primary_intent := "unknown", requires_agents := [], confidence := 0 })
    ∧ (pyStrip (lowerStr user_input) ≠ "" →
       (∀ p ∈ INTENT_PATTERNS, patternCompatible current_phase p = true →
          patternScore (pyStrip (lowerStr user_input)) p = 0) →
      analyzeRuleBased user_input current_phase =
        { primary_intent := "unknown", requires_agents := [], confidence := 0 })
    ∧ (pyStrip (lowerStr user_input) ≠ "" →
       ∀ q : IntentPattern,
       (∃ p ∈ INTENT_PATTERNS, patternCompatible current_phase p = true ∧
          patternScore (pyStrip (lowerStr user_input)) p > 0) →
       INTENT_PATTERNS.find?
         (fun p => patternCompatible current_phase p &&
           decide (patternScore (pyStrip (lowerStr user_input)) p =
             maxFrom current_phase (pyStrip (lowerStr user_input)) 0 INTENT_PATTERNS)) =
         some q →
      analyzeRuleBased user_input current_phase =
        { primary_intent := q.intent,
          requires_agents := INTENT_TO_AGENTS q.intent,
          confidence := min 1 (3/10 + (2/10) *
            ((maxFrom current_phase (pyStrip (lowerStr user_input)) 0 INTENT_PATTERNS : ℕ) : ℚ)) }) := by
  refine ⟨?_, ?_, ?_⟩
  · intro hempty
    unfold analyzeRuleBased
    rw [if_pos hempty]
  · intro hne hzero
    unfold analyzeRuleBased
    rw [if_neg hne]
    have hfold : bestPattern current_phase (pyStrip (lowerStr user_input)) =
        (Option.none, 0) := by
      unfold bestPattern
      exact fold_bestStep_no_update current_phase _ INTENT_PATTERNS (Option.none, 0)
        (fun p hp hc => le_of_eq (hzero p hp hc))
    rw [hfold]
  · intro hne q hex hfind
    unfold analyzeRuleBased
    rw [if_neg hne]
    obtain ⟨q', hfind', hfold⟩ :=
      fold_bestStep_char current_phase (pyStrip (lowerStr user_input))
        INTENT_PATTERNS Option.none 0 hex
    have hq : q' = q := by
      rw [hfind'] at hfind
      exact Option.some.inj hfind
    subst hq
    unfold bestPattern
    rw [hfold]

/-- Witness for C8: `"generate architecture"` in phase
`"requirements_complete"` scores 1 for `architecture_design` and 1 for
`export`; the tie goes to `architecture_design` (catalog order) with
confidence 0.5. -/
theorem claim_C8_witness :
    analyzeRuleBased "generate architecture" (PyVal.str "requirements_complete") =
      { primary_intent := "architecture_design",
        requires_agents := ["project_architect"],
        confidence := min 1 (3/10 + (2/10) *
          ((maxFrom (PyVal.str "requirements_complete")
            (pyStrip (lowerStr "generate architecture")) 0 INTENT_PATTERNS : ℕ) : ℚ)) } := by
  have h := (claim_C8_rule_based_classifier "generate architecture"
    (PyVal.str "requirements_complete")).2.2
  have hres := h (by decide)
    (INTENT_PATTERNS.get ⟨1, by decide⟩)
    ⟨INTENT_PATTERNS.get ⟨1, by decide⟩, by decide, by decide, by decide⟩
    (by decide)
  rw [hres]
  rfl

/-! ### C3 — upstream dependency ordering in the emitted plan

The dependency-resolution passes only append to the plan, so the key
invariant — every plan member's absent required artifacts have their
producer at a strictly earlier (first-occurrence) index — is preserved by
each append whose dependencies are already present. -/

theorem upstreamOrdered_nil (has : String → Bool) : UpstreamOrdered has [] := by
  intro aid _ _ _ h
  simp at h

/-- Appending an id whose absent-artifact producers are already present
preserves the ordering invariant. -/
theorem upstreamOrdered_append (has : String → Bool) (l : List String) (x : String)
    (h : UpstreamOrdered has l)
    (hx : ∀ entry art producer,
      getAgentById x = some entry →
      entry.requires.contains "*" = false →
      art ∈ entry.requires → has art = false →
      getProducerForArtifact art = some producer → producer ∈ l) :
    UpstreamOrdered has (l ++ [x]) := by
  intro aid entry art producer hmem hentry hwild hart habs hprod
  by_cases hal : aid ∈ l
  · obtain ⟨hp, hlt⟩ := h aid entry art producer hal hentry hwild hart habs hprod
    refine ⟨List.mem_append_left _ hp, ?_⟩
    rw [List.indexOf_append_of_mem hp, List.indexOf_append_of_mem hal]
    exact hlt
  · have hax : aid = x := by
      rcases List.mem_append.mp hmem with h' | h'
      · exact absurd h' hal
      · simpa using h'
    subst hax
    have hp : producer ∈ l := hx entry art producer hentry hwild hart habs hprod
    refine ⟨List.mem_append_left _ hp, ?_⟩
    rw [List.indexOf_append_of_mem hp, List.indexOf_append_of_not_mem hal]
    calc l.indexOf producer < l.length := List.indexOf_lt_length.mpr hp
    _ ≤ l.length + [aid].indexOf aid := Nat.le_add_right _ _

/-- Membership is preserved by any append. -/
theorem mem_append_left_of_mem {α : Type} {a : α} {l₁ l₂ : List α}
    (h : a ∈ l₁) : a ∈ l₁ ++ l₂ := List.mem_append_left _ h

/-- First-occurrence order survives `filter` when both elements are kept. -/
theorem indexOf_filter_lt (p : String → Bool) :
    ∀ (l : List String) (x y : String), x ∈ l → y ∈ l →
      p x = true → p y = true → l.indexOf x < l.indexOf y →
      x ∈ l.filter p ∧ y ∈ l.filter p ∧
        (l.filter p).indexOf x < (l.filter p).indexOf y := by
  intro l
  induction l with
  | nil => intro x y hx; simp at hx
  | cons h t ih =>
    intro x y hx hy hpx hpy hlt
    have hxy : x ≠ y := by
      intro he
      subst he
      exact lt_irrefl _ hlt
    by_cases hhx : h = x
    · subst hhx
      have hyt : y ∈ t := by
        rcases List.mem_cons.mp hy with h' | h'
        · exact absurd h'.symm hxy
        · exact h'
      rw [List.filter_cons_of_pos hpx]
      refine ⟨List.mem_cons_self _ _, List.mem_cons_of_mem _ (List.mem_filter.mpr ⟨hyt, hpy⟩), ?_⟩
      rw [List.indexOf_cons_self, List.indexOf_cons_ne _ (fun he => hxy he)]
      exact Nat.succ_pos _
    · by_cases hhy : h = y
      · subst hhy
        rw [List.indexOf_cons_self] at hlt
        simp at hlt
      · have hxt : x ∈ t := by
          rcases List.mem_cons.mp hx with h' | h'
          · exact absurd h'.symm hhx
          · exact h'
        have hyt : y ∈ t := by
          rcases List.mem_cons.mp hy with h' | h'
          · exact absurd h'.symm hhy
          · exact h'
        rw [List.indexOf_cons_ne _ (fun he => hhx he),
            List.indexOf_cons_ne _ (fun he => hhy he)] at hlt
        have hlt' : t.indexOf x < t.indexOf y := Nat.succ_lt_succ_iff.mp hlt
        obtain ⟨hfx, hfy, hflt⟩ := ih x y hxt hyt hpx hpy hlt'
        by_cases hph : p h = true
        · rw [List.filter_cons_of_pos hph]
          refine ⟨List.mem_cons_of_mem _ hfx, List.mem_cons_of_mem _ hfy, ?_⟩
          rw [List.indexOf_cons_ne _ (fun he => hhx he),
              List.indexOf_cons_ne _ (fun he => hhy he)]
          exact Nat.succ_lt_succ hflt
        · rw [List.filter_cons_of_neg (by simpa using hph)]
          exact ⟨hfx, hfy, hflt⟩

/-! #### Closed forms of `add_with_deps` on the concrete `AGENT_STORE`

The DFS recursion depth is bounded by the store's longest `requires` chain
(`execution_planner → project_architect → requirements_collector`), so for
each concrete id the recursion unfolds into a guarded-append expression as
soon as enough fuel is available. -/

theorem addWithDeps_rc (has : String → Bool) (n : Nat) (acc : List String) :
    addWithDeps has (n + 1) "requirements_collector" acc = insRC acc := by
  unfold addWithDeps insRC
  split
  · rfl
  · rfl

theorem addWithDeps_pa (has : String → Bool) (n : Nat) (acc : List String) :
    addWithDeps has (n + 2) "project_architect" acc = insPA has acc := by
  unfold addWithDeps insPA
  split
  · rfl
  · show (List.foldl _ acc ["requirements"]) ++ _ = _
    rw [List.foldl_cons, List.foldl_nil]
    show (if has "requirements" then acc
          else addWithDeps has (n + 1) "requirements_collector" acc) ++ _ = _
    rw [addWithDeps_rc]

theorem addWithDeps_ep (has : String → Bool) (n : Nat) (acc : List String) :
    addWithDeps has (n + 3) "execution_planner" acc = insEP has acc := by
  unfold addWithDeps insEP
  split
  · rfl
  · show (List.foldl _ acc ["architecture"]) ++ _ = _
    rw [List.foldl_cons, List.foldl_nil]
    show (if has "architecture" then acc
          else addWithDeps has (n + 2) "project_architect" acc) ++ _ = _
    rw [addWithDeps_pa]

theorem addWithDeps_ma (has : String → Bool) (n : Nat) (acc : List String) :
    addWithDeps has (n + 3) "mockup_agent" acc = insMA has acc := by
  unfold addWithDeps insMA
  split
  · rfl
  · show (List.foldl _ acc ["requirements", "architecture"]) ++ _ = _
    rw [List.foldl_cons, List.foldl_cons, List.foldl_nil]
    show (if has "architecture" then
            (if has "requirements" then acc
             else addWithDeps has (n + 2) "requirements_collector" acc)
          else addWithDeps has (n + 2) "project_architect"
            (if has "requirements" then acc
             else addWithDeps has (n + 2) "requirements_collector" acc)) ++
        ["mockup_agent"] = _
    rw [show addWithDeps has (n + 2) "requirements_collector" acc = insRC acc
        from addWithDeps_rc has (n + 1) acc]
    rw [addWithDeps_pa]

theorem addWithDeps_exp (has : String → Bool) (n : Nat) (acc : List String) :
    addWithDeps has (n + 1) "exporter" acc = insEXP acc := by
  unfold addWithDeps insEXP
  split
  · rfl
  · rfl

/-- Ids outside the store: `get_agent_by_id` finds nothing. -/
theorem getAgentById_eq_none (aid : String)
    (h1 : aid ≠ "requirements_collector") (h2 : aid ≠ "project_architect")
    (h3 : aid ≠ "execution_planner") (h4 : aid ≠ "mockup_agent")
    (h5 : aid ≠ "exporter") :
    getAgentById aid = Option.none := by
  have d1 : ("requirements_collector" = aid) = False := eq_false (fun h => h1 h.symm)
  have d2 : ("project_architect" = aid) = False := eq_false (fun h => h2 h.symm)
  have d3 : ("execution_planner" = aid) = False := eq_false (fun h => h3 h.symm)
  have d4 : ("mockup_agent" = aid) = False := eq_false (fun h => h4 h.symm)
  have d5 : ("exporter" = aid) = False := eq_false (fun h => h5 h.symm)
  simp only [getAgentById, AGENT_STORE, List.find?, d1, d2, d3, d4, d5,
    decide_False]

theorem addWithDeps_other (has : String → Bool) (n : Nat) (acc : List String)
    (aid : String)
    (h1 : aid ≠ "requirements_collector") (h2 : aid ≠ "project_architect")
    (h3 : aid ≠ "execution_planner") (h4 : aid ≠ "mockup_agent")
    (h5 : aid ≠ "exporter") :
    addWithDeps has (n + 1) aid acc = insOther aid acc := by
  unfold addWithDeps insOther
  split
  · rfl
  · rw [getAgentById_eq_none aid h1 h2 h3 h4 h5]

theorem addWithDeps_storeFuel (has : String → Bool) (acc : List String)
    (aid : String) :
    addWithDeps has AGENT_STORE.length aid acc = insStep has acc aid := by
  by_cases h1 : aid = "requirements_collector"
  · subst h1; exact addWithDeps_rc has 4 acc
  · by_cases h2 : aid = "project_architect"
    · subst h2
      rw [show insStep has acc "project_architect" = insPA has acc from rfl]
      exact addWithDeps_pa has 3 acc
    · by_cases h3 : aid = "execution_planner"
      · subst h3
        rw [show insStep has acc "execution_planner" = insEP has acc from rfl]
        exact addWithDeps_ep has 2 acc
      · by_cases h4 : aid = "mockup_agent"
        · subst h4
          rw [show insStep has acc "mockup_agent" = insMA has acc from rfl]
          exact addWithDeps_ma has 2 acc
        · by_cases h5 : aid = "exporter"
          · subst h5
            rw [show insStep has acc "exporter" = insEXP acc from rfl]
            exact addWithDeps_exp has 4 acc
          · rw [show insStep has acc aid = insOther aid acc from by
              simp only [insStep, if_neg h1, if_neg h2, if_neg h3, if_neg h4,
                if_neg h5]]
            exact addWithDeps_other has 4 acc aid h1 h2 h3 h4 h5

theorem resolveUpstream_eq_insStep (has : String → Bool) (ids : List String) :
    resolveUpstream has ids = ids.foldl (insStep has) [] := by
  unfold resolveUpstream
  suffices h : ∀ acc, ids.foldl
      (fun acc aid => addWithDeps has AGENT_STORE.length aid acc) acc =
      ids.foldl (insStep has) acc from h []
  induction ids with
  | nil => intro acc; rfl
  | cons hd tl ih =>
    intro acc
    rw [List.foldl_cons, List.foldl_cons, addWithDeps_storeFuel]
    exact ih _

theorem gA_rc : getAgentById "requirements_collector" = some entryRC := rfl
theorem gA_pa : getAgentById "project_architect" = some entryPA := rfl
theorem gA_ep : getAgentById "execution_planner" = some entryEP := rfl
theorem gA_ma : getAgentById "mockup_agent" = some entryMA := rfl
theorem gA_exp : getAgentById "exporter" = some entryEXP := rfl

theorem prod_requirements :
    getProducerForArtifact "requirements" = some "requirements_collector" := rfl
theorem prod_architecture :
    getProducerForArtifact "architecture" = some "project_architect" := rfl

/-- Inversion of `get_agent_by_id`: a hit names one of the five store
entries. -/
theorem getAgentById_inv (aid : String) (entry : AgentEntry)
    (h : getAgentById aid = some entry) :
    (aid = "requirements_collector" ∧ entry = entryRC) ∨
    (aid = "project_architect" ∧ entry = entryPA) ∨
    (aid = "execution_planner" ∧ entry = entryEP) ∨
    (aid = "mockup_agent" ∧ entry = entryMA) ∨
    (aid = "exporter" ∧ entry = entryEXP) := by
  by_cases h1 : aid = "requirements_collector"
  · subst h1; rw [gA_rc] at h; exact Or.inl ⟨rfl, (Option.some.inj h).symm⟩
  · by_cases h2 : aid = "project_architect"
    · subst h2; rw [gA_pa] at h
      exact Or.inr (Or.inl ⟨rfl, (Option.some.inj h).symm⟩)
    · by_cases h3 : aid = "execution_planner"
      · subst h3; rw [gA_ep] at h
        exact Or.inr (Or.inr (Or.inl ⟨rfl, (Option.some.inj h).symm⟩))
      · by_cases h4 : aid = "mockup_agent"
        · subst h4; rw [gA_ma] at h
          exact Or.inr (Or.inr (Or.inr (Or.inl ⟨rfl, (Option.some.inj h).symm⟩)))
        · by_cases h5 : aid = "exporter"
          · subst h5; rw [gA_exp] at h
            exact Or.inr (Or.inr (Or.inr (Or.inr ⟨rfl, (Option.some.inj h).symm⟩)))
          · rw [getAgentById_eq_none aid h1 h2 h3 h4 h5] at h
            exact absurd h (by simp)

/-! Subset and membership facts for the guarded insertions. -/

theorem subset_insRC (acc : List String) : acc ⊆ insRC acc := by
  unfold insRC; split
  · exact List.Subset.refl _
  · exact List.subset_append_left _ _

theorem mem_insRC (acc : List String) :
    "requirements_collector" ∈ insRC acc := by
  unfold insRC; split
  · next h => exact List.mem_of_elem_eq_true h
  · exact List.mem_append_right _ (List.mem_singleton.mpr rfl)

theorem subset_insPA (has : String → Bool) (acc : List String) :
    acc ⊆ insPA has acc := by
  unfold insPA; split
  · exact List.Subset.refl _
  · intro a ha
    apply List.mem_append_left
    split
    · exact ha
    · exact subset_insRC acc ha

theorem mem_insPA (has : String → Bool) (acc : List String) :
    "project_architect" ∈ insPA has acc := by
  unfold insPA; split
  · next h => exact List.mem_of_elem_eq_true h
  · exact List.mem_append_right _ (List.mem_singleton.mpr rfl)

theorem subset_insEP (has : String → Bool) (acc : List String) :
    acc ⊆ insEP has acc := by
  unfold insEP; split
  · exact List.Subset.refl _
  · intro a ha
    apply List.mem_append_left
    split
    · exact ha
    · exact subset_insPA has acc ha

theorem subset_insMA (has : String → Bool) (acc : List String) :
    acc ⊆ insMA has acc := by
  unfold insMA; split
  · exact List.Subset.refl _
  · intro a ha
    apply List.mem_append_left
    show a ∈ (if has "architecture" then
                (if has "requirements" then acc else insRC acc)
              else insPA has (if has "requirements" then acc else insRC acc))
    have h1 : a ∈ (if has "requirements" then acc else insRC acc) := by
      split
      · exact ha
      · exact subset_insRC acc ha
    split
    · exact h1
    · exact subset_insPA has _ h1

theorem subset_insEXP (acc : List String) : acc ⊆ insEXP acc := by
  unfold insEXP; split
  · exact List.Subset.refl _
  · exact List.subset_append_left _ _

theorem subset_insOther (aid : String) (acc : List String) :
    acc ⊆ insOther aid acc := by
  unfold insOther; split
  · exact List.Subset.refl _
  · exact List.subset_append_left _ _

theorem subset_insStep (has : String → Bool) (acc : List String) (aid : String) :
    acc ⊆ insStep has acc aid := by
  unfold insStep
  split
  · exact subset_insRC acc
  split
  · exact subset_insPA has acc
  split
  · exact subset_insEP has acc
  split
  · exact subset_insMA has acc
  split
  · exact subset_insEXP acc
  · exact subset_insOther _ acc

theorem self_mem_insStep (has : String → Bool) (acc : List String) (aid : String) :
    aid ∈ insStep has acc aid := by
  unfold insStep
  by_cases h1 : aid = "requirements_collector"
  · subst h1; rw [if_pos rfl]; exact mem_insRC acc
  rw [if_neg h1]
  by_cases h2 : aid = "project_architect"
  · subst h2; rw [if_pos rfl]; exact mem_insPA has acc
  rw [if_neg h2]
  by_cases h3 : aid = "execution_planner"
  · subst h3
    rw [if_pos rfl]
    unfold insEP; split
    · next h => exact List.mem_of_elem_eq_true h
    · exact List.mem_append_right _ (List.mem_singleton.mpr rfl)
  rw [if_neg h3]
  by_cases h4 : aid = "mockup_agent"
  · subst h4
    rw [if_pos rfl]
    unfold insMA; split
    · next h => exact List.mem_of_elem_eq_true h
    · exact List.mem_append_right _ (List.mem_singleton.mpr rfl)
  rw [if_neg h4]
  by_cases h5 : aid = "exporter"
  · subst h5
    rw [if_pos rfl]
    unfold insEXP; split
    · next h => exact List.mem_of_elem_eq_true h
    · exact List.mem_append_right _ (List.mem_singleton.mpr rfl)
  rw [if_neg h5]
  unfold insOther; split
  · next h => exact List.mem_of_elem_eq_true h
  · exact List.mem_append_right _ (List.mem_singleton.mpr rfl)

/-! Preservation of the ordering invariant by each guarded insertion. -/

theorem ordered_insRC (has : String → Bool) (l : List String)
    (h : UpstreamOrdered has l) : UpstreamOrdered has (insRC l) := by
  unfold insRC; split
  · exact h
  · apply upstreamOrdered_append has l _ h
    intro entry art producer hga hwild hart habs hprod
    rw [gA_rc] at hga
    rw [← Option.some.inj hga] at hart
    rw [show entryRC.requires = [] from rfl] at hart
    simp at hart

theorem ordered_insEXP (has : String → Bool) (l : List String)
    (h : UpstreamOrdered has l) : UpstreamOrdered has (insEXP l) := by
  unfold insEXP; split
  · exact h
  · apply upstreamOrdered_append has l _ h
    intro entry art producer hga hwild hart habs hprod
    rw [gA_exp] at hga
    rw [← Option.some.inj hga] at hwild
    rw [show entryEXP.requires.contains "*" = true from rfl] at hwild
    exact absurd hwild (by simp)

theorem ordered_insUnknown (has : String → Bool) (l : List String) (aid : String)
    (h : UpstreamOrdered has l)
    (h1 : aid ≠ "requirements_collector") (h2 : aid ≠ "project_architect")
    (h3 : aid ≠ "execution_planner") (h4 : aid ≠ "mockup_agent")
    (h5 : aid ≠ "exporter") :
    UpstreamOrdered has (insOther aid l) := by
  unfold insOther; split
  · exact h
  · apply upstreamOrdered_append has l _ h
    intro entry art producer hga hwild hart habs hprod
    rw [getAgentById_eq_none aid h1 h2 h3 h4 h5] at hga
    exact absurd hga (by simp)

theorem ordered_insPA (has : String → Bool) (l : List String)
    (h : UpstreamOrdered has l) : UpstreamOrdered has (insPA has l) := by
  unfold insPA; split
  · exact h
  · have hbase : UpstreamOrdered has (if has "requirements" then l else insRC l) := by
      split
      · exact h
      · exact ordered_insRC has l h
    apply upstreamOrdered_append has _ _ hbase
    intro entry art producer hga hwild hart habs hprod
    rw [gA_pa] at hga
    rw [← Option.some.inj hga] at hart
    rw [show entryPA.requires = ["requirements"] from rfl] at hart
    rw [List.mem_singleton.mp hart] at habs hprod
    rw [prod_requirements] at hprod
    rw [← Option.some.inj hprod]
    rw [if_neg (by rw [habs]; exact Bool.false_ne_true)]
    exact mem_insRC l

theorem ordered_insEP (has : String → Bool) (l : List String)
    (h : UpstreamOrdered has l) : UpstreamOrdered has (insEP has l) := by
  unfold insEP; split
  · exact h
  · have hbase : UpstreamOrdered has (if has "architecture" then l else insPA has l) := by
      split
      · exact h
      · exact ordered_insPA has l h
    apply upstreamOrdered_append has _ _ hbase
    intro entry art producer hga hwild hart habs hprod
    rw [gA_ep] at hga
    rw [← Option.some.inj hga] at hart
    rw [show entryEP.requires = ["architecture"] from rfl] at hart
    rw [List.mem_singleton.mp hart] at habs hprod
    rw [prod_architecture] at hprod
    rw [← Option.some.inj hprod]
    rw [if_neg (by rw [habs]; exact Bool.false_ne_true)]
    exact mem_insPA has l

theorem ordered_insMA (has : String → Bool) (l : List String)
    (h : UpstreamOrdered has l) : UpstreamOrdered has (insMA has l) := by
  unfold insMA; split
  · exact h
  · show UpstreamOrdered has
      ((if has "architecture" then (if has "requirements" then l else insRC l)
        else insPA has (if has "requirements" then l else insRC l)) ++ ["mockup_agent"])
    have hbase1 : UpstreamOrdered has (if has "requirements" then l else insRC l) := by
      split
      · exact h
      · exact ordered_insRC has l h
    have hbase2 : UpstreamOrdered has
        (if has "architecture" then (if has "requirements" then l else insRC l)
         else insPA has (if has "requirements" then l else insRC l)) := by
      split
      · exact hbase1
      · exact ordered_insPA has _ hbase1
    apply upstreamOrdered_append has _ _ hbase2
    intro entry art producer hga hwild hart habs hprod
    rw [gA_ma] at hga
    rw [← Option.some.inj hga] at hart
    rw [show entryMA.requires = ["requirements", "architecture"] from rfl] at hart
    rcases List.mem_cons.mp hart with rfl | hart'
    · rw [prod_requirements] at hprod
      rw [← Option.some.inj hprod]
      have hrc : "requirements_collector" ∈
          (if has "requirements" then l else insRC l) := by
        rw [if_neg (by rw [habs]; exact Bool.false_ne_true)]
        exact mem_insRC l
      split
      · exact hrc
      · exact subset_insPA has _ hrc
    · rw [List.mem_singleton.mp hart'] at habs hprod
      rw [prod_architecture] at hprod
      rw [← Option.some.inj hprod]
      rw [if_neg (by rw [habs]; exact Bool.false_ne_true)]
      exact mem_insPA has _

theorem ordered_insStep (has : String → Bool) (acc : List String) (aid : String)
    (h : UpstreamOrdered has acc) : UpstreamOrdered has (insStep has acc aid) := by
  unfold insStep
  by_cases h1 : aid = "requirements_collector"
  · rw [if_pos h1]; exact ordered_insRC has acc h
  rw [if_neg h1]
  by_cases h2 : aid = "project_architect"
  · rw [if_pos h2]; exact ordered_insPA has acc h
  rw [if_neg h2]
  by_cases h3 : aid = "execution_planner"
  · rw [if_pos h3]; exact ordered_insEP has acc h
  rw [if_neg h3]
  by_cases h4 : aid = "mockup_agent"
  · rw [if_pos h4]; exact ordered_insMA has acc h
  rw [if_neg h4]
  by_cases h5 : aid = "exporter"
  · rw [if_pos h5]; exact ordered_insEXP has acc h
  rw [if_neg h5]
  exact ordered_insUnknown has acc aid h h1 h2 h3 h4 h5

theorem ordered_foldl_insStep (has : String → Bool) (ids : List String) :
    ∀ acc, UpstreamOrdered has acc →
      UpstreamOrdered has (ids.foldl (insStep has) acc) := by
  induction ids with
  | nil => intro acc h; exact h
  | cons hd tl ih =>
    intro acc h
    rw [List.foldl_cons]
    exact ih _ (ordered_insStep has acc hd h)

theorem ordered_resolveUpstream (has : String → Bool) (ids : List String) :
    UpstreamOrdered has (resolveUpstream has ids) := by
  rw [resolveUpstream_eq_insStep]
  exact ordered_foldl_insStep has ids [] (upstreamOrdered_nil has)

theorem subset_foldl_insStep (has : String → Bool) (ids : List String) :
    ∀ acc, acc ⊆ ids.foldl (insStep has) acc := by
  induction ids with
  | nil => intro acc; exact List.Subset.refl _
  | cons hd tl ih =>
    intro acc
    rw [List.foldl_cons]
    exact List.Subset.trans (subset_insStep has acc hd) (ih _)

theorem requested_mem_foldl_insStep (has : String → Bool) (ids : List String) :
    ∀ acc aid, aid ∈ ids → aid ∈ ids.foldl (insStep has) acc := by
  induction ids with
  | nil => intro acc aid h; simp at h
  | cons hd tl ih =>
    intro acc aid h
    rw [List.foldl_cons]
    rcases List.mem_cons.mp h with rfl | h'
    · exact subset_foldl_insStep has tl _ (self_mem_insStep has acc aid)
    · exact ih _ aid h'

theorem requested_mem_resolveUpstream (has : String → Bool) (ids : List String)
    (aid : String) (h : aid ∈ ids) : aid ∈ resolveUpstream has ids := by
  rw [resolveUpstream_eq_insStep]
  exact requested_mem_foldl_insStep has ids [] aid h

/-! Downstream expansion: each guarded append keeps the invariant because a
freshly resolved id arrives after its own upstream dependencies. -/

theorem downstreamAppend_fst (a : List String × Bool) (nid : String) :
    (downstreamAppend a nid).1 = insOther nid a.1 := by
  unfold downstreamAppend insOther
  split
  · rfl
  · rfl

theorem mem_insOther_self (aid : String) (l : List String) :
    aid ∈ insOther aid l := by
  unfold insOther; split
  · next h => exact List.mem_of_elem_eq_true h
  · exact List.mem_append_right _ (List.mem_singleton.mpr rfl)

/-- Appending `project_architect` alone preserves the invariant when the
requirements producer is already present (or the artifact is present). -/
theorem ordered_appG_pa (has : String → Bool) (l : List String)
    (h : UpstreamOrdered has l)
    (hpre : has "requirements" = false → "requirements_collector" ∈ l) :
    UpstreamOrdered has (insOther "project_architect" l) := by
  unfold insOther; split
  · exact h
  · apply upstreamOrdered_append has l _ h
    intro entry art producer hga hwild hart habs hprod
    rw [gA_pa] at hga
    rw [← Option.some.inj hga] at hart
    rw [show entryPA.requires = ["requirements"] from rfl] at hart
    rw [List.mem_singleton.mp hart] at habs hprod
    rw [prod_requirements] at hprod
    rw [← Option.some.inj hprod]
    exact hpre habs

theorem ordered_appG_ep (has : String → Bool) (l : List String)
    (h : UpstreamOrdered has l)
    (hpre : has "architecture" = false → "project_architect" ∈ l) :
    UpstreamOrdered has (insOther "execution_planner" l) := by
  unfold insOther; split
  · exact h
  · apply upstreamOrdered_append has l _ h
    intro entry art producer hga hwild hart habs hprod
    rw [gA_ep] at hga
    rw [← Option.some.inj hga] at hart
    rw [show entryEP.requires = ["architecture"] from rfl] at hart
    rw [List.mem_singleton.mp hart] at habs hprod
    rw [prod_architecture] at hprod
    rw [← Option.some.inj hprod]
    exact hpre habs

theorem ordered_appG_ma (has : String → Bool) (l : List String)
    (h : UpstreamOrdered has l)
    (hpre1 : has "requirements" = false → "requirements_collector" ∈ l)
    (hpre2 : has "architecture" = false → "project_architect" ∈ l) :
    UpstreamOrdered has (insOther "mockup_agent" l) := by
  unfold insOther; split
  · exact h
  · apply upstreamOrdered_append has l _ h
    intro entry art producer hga hwild hart habs hprod
    rw [gA_ma] at hga
    rw [← Option.some.inj hga] at hart
    rw [show entryMA.requires = ["requirements", "architecture"] from rfl] at hart
    rcases List.mem_cons.mp hart with rfl | hart'
    · rw [prod_requirements] at hprod
      rw [← Option.some.inj hprod]
      exact hpre1 habs
    · rw [List.mem_singleton.mp hart'] at habs hprod
      rw [prod_architecture] at hprod
      rw [← Option.some.inj hprod]
      exact hpre2 habs

/-- Closed forms of the single-id upstream resolutions used by the
downstream pass. -/
theorem ru_single_pa (has : String → Bool) :
    resolveUpstream has ["project_architect"] =
      if has "requirements" then ["project_architect"]
      else ["requirements_collector", "project_architect"] := by
  rw [resolveUpstream_eq_insStep]
  show insStep has [] "project_architect" = _
  by_cases hr : has "requirements"
  · simp [insStep, insPA, hr]
  · simp [insStep, insPA, insRC, hr]

theorem ru_single_ep (has : String → Bool) :
    resolveUpstream has ["execution_planner"] =
      if has "architecture" then ["execution_planner"]
      else if has "requirements" then ["project_architect", "execution_planner"]
      else ["requirements_collector", "project_architect", "execution_planner"] := by
  rw [resolveUpstream_eq_insStep]
  show insStep has [] "execution_planner" = _
  by_cases ha : has "architecture"
  · simp [insStep, insEP, ha]
  · by_cases hr : has "requirements"
    · simp [insStep, insEP, insPA, ha, hr]
    · simp [insStep, insEP, insPA, insRC, ha, hr]

theorem ru_single_ma (has : String → Bool) :
    resolveUpstream has ["mockup_agent"] =
      if has "requirements" then
        (if has "architecture" then ["mockup_agent"]
         else ["project_architect", "mockup_agent"])
      else
        (if has "architecture" then ["requirements_collector", "mockup_agent"]
         else ["requirements_collector", "project_architect", "mockup_agent"]) := by
  rw [resolveUpstream_eq_insStep]
  show insStep has [] "mockup_agent" = _
  by_cases hr : has "requirements"
  · by_cases ha : has "architecture"
    · simp [insStep, insMA, hr, ha]
    · simp [insStep, insMA, insPA, hr, ha]
  · by_cases ha : has "architecture"
    · simp [insStep, insMA, insRC, hr, ha]
    · simp [insStep, insMA, insPA, insRC, hr, ha]

theorem foldl_dA_fst (l : List String) :
    ∀ a : List String × Bool,
      (l.foldl downstreamAppend a).1 =
        l.foldl (fun r nid => insOther nid r) a.1 := by
  induction l with
  | nil => intro a; rfl
  | cons hd tl ih =>
    intro a
    rw [List.foldl_cons, List.foldl_cons, ih, downstreamAppend_fst]

theorem subset_foldl_insOther (l : List String) :
    ∀ r : List String, r ⊆ l.foldl (fun r nid => insOther nid r) r := by
  induction l with
  | nil => intro r; exact List.Subset.refl _
  | cons hd tl ih =>
    intro r
    rw [List.foldl_cons]
    exact List.Subset.trans (subset_insOther hd r) (ih _)

/-- One downstream entry step preserves the ordering invariant and only
extends the plan. -/
theorem ordered_downstreamEntryStep (has : String → Bool)
    (produced : List String) (e : AgentEntry) (he : e ∈ AGENT_STORE)
    (a : List String × Bool) (h : UpstreamOrdered has a.1) :
    UpstreamOrdered has (downstreamEntryStep has produced a e).1 ∧
      a.1 ⊆ (downstreamEntryStep has produced a e).1 := by
  have hid : e = entryRC ∨ e = entryPA ∨ e = entryEP ∨ e = entryMA ∨ e = entryEXP := by
    simp only [AGENT_STORE, List.mem_cons, List.not_mem_nil, or_false] at he
    rcases he with rfl | rfl | rfl | rfl | rfl
    · exact Or.inl rfl
    · exact Or.inr (Or.inl rfl)
    · exact Or.inr (Or.inr (Or.inl rfl))
    · exact Or.inr (Or.inr (Or.inr (Or.inl rfl)))
    · exact Or.inr (Or.inr (Or.inr (Or.inr rfl)))
  rcases hid with rfl | rfl | rfl | rfl | rfl
  · -- requirements_collector: empty requires, never downstream-added
    unfold downstreamEntryStep
    split
    · exact ⟨h, List.Subset.refl _⟩
    · rw [if_neg (by decide),
        if_neg (by simp [show entryRC.requires = ([] : List String) from rfl])]
      exact ⟨h, List.Subset.refl _⟩
  · -- project_architect
    unfold downstreamEntryStep
    split
    · exact ⟨h, List.Subset.refl _⟩
    · rw [if_neg (by decide)]
      split
      · rw [show entryPA.id = "project_architect" from rfl, ru_single_pa]
        by_cases hr : has "requirements"
        · rw [if_pos hr]
          constructor
          · rw [foldl_dA_fst]
            show UpstreamOrdered has (insOther "project_architect" a.1)
            exact ordered_appG_pa has a.1 h
              (fun hf => absurd hr (by rw [hf]; exact Bool.false_ne_true))
          · intro x hx
            have : a.1 ⊆ (["project_architect"].foldl
                (fun r nid => insOther nid r) a.1) := subset_foldl_insOther _ _
            rw [foldl_dA_fst]
            exact this hx
        · rw [if_neg hr]
          constructor
          · rw [foldl_dA_fst]
            show UpstreamOrdered has
              (insOther "project_architect" (insOther "requirements_collector" a.1))
            have h1 : UpstreamOrdered has (insOther "requirements_collector" a.1) :=
              ordered_insRC has a.1 h
            exact ordered_appG_pa has _ h1
              (fun _ => mem_insOther_self "requirements_collector" a.1)
          · rw [foldl_dA_fst]
            exact subset_foldl_insOther _ _
      · exact ⟨h, List.Subset.refl _⟩
  · -- execution_planner
    unfold downstreamEntryStep
    split
    · exact ⟨h, List.Subset.refl _⟩
    · rw [if_neg (by decide)]
      split
      · rw [show entryEP.id = "execution_planner" from rfl, ru_single_ep]
        refine ⟨?_, by
          split <;> try split
          all_goals rw [foldl_dA_fst]; exact subset_foldl_insOther _ _⟩
        by_cases ha : has "architecture"
        · rw [if_pos ha, foldl_dA_fst]
          show UpstreamOrdered has (insOther "execution_planner" a.1)
          exact ordered_appG_ep has a.1 h
            (fun hf => absurd ha (by rw [hf]; exact Bool.false_ne_true))
        · rw [if_neg ha]
          by_cases hr : has "requirements"
          · rw [if_pos hr, foldl_dA_fst]
            show UpstreamOrdered has
              (insOther "execution_planner" (insOther "project_architect" a.1))
            have h1 : UpstreamOrdered has (insOther "project_architect" a.1) :=
              ordered_appG_pa has a.1 h
                (fun hf => absurd hr (by rw [hf]; exact Bool.false_ne_true))
            exact ordered_appG_ep has _ h1
              (fun _ => mem_insOther_self "project_architect" a.1)
          · rw [if_neg hr, foldl_dA_fst]
            show UpstreamOrdered has
              (insOther "execution_planner" (insOther "project_architect"
                (insOther "requirements_collector" a.1)))
            have h1 : UpstreamOrdered has (insOther "requirements_collector" a.1) :=
              ordered_insRC has a.1 h
            have h2 : UpstreamOrdered has
                (insOther "project_architect" (insOther "requirements_collector" a.1)) :=
              ordered_appG_pa has _ h1
                (fun _ => mem_insOther_self "requirements_collector" a.1)
            exact ordered_appG_ep has _ h2
              (fun _ => mem_insOther_self "project_architect" _)
      · exact ⟨h, List.Subset.refl _⟩
  · -- mockup_agent
    unfold downstreamEntryStep
    split
    · exact ⟨h, List.Subset.refl _⟩
    · rw [if_neg (by decide)]
      split
      · rw [show entryMA.id = "mockup_agent" from rfl, ru_single_ma]
        refine ⟨?_, by
          split <;> split
          all_goals rw [foldl_dA_fst]; exact subset_foldl_insOther _ _⟩
        by_cases hr : has "requirements"
        · rw [if_pos hr]
          by_cases ha : has "architecture"
          · rw [if_pos ha, foldl_dA_fst]
            show UpstreamOrdered has (insOther "mockup_agent" a.1)
            exact ordered_appG_ma has a.1 h
              (fun hf => absurd hr (by rw [hf]; exact Bool.false_ne_true))
              (fun hf => absurd ha (by rw [hf]; exact Bool.false_ne_true))
          · rw [if_neg ha, foldl_dA_fst]
            show UpstreamOrdered has
              (insOther "mockup_agent" (insOther "project_architect" a.1))
            have h1 : UpstreamOrdered has (insOther "project_architect" a.1) :=
              ordered_appG_pa has a.1 h
                (fun hf => absurd hr (by rw [hf]; exact Bool.false_ne_true))
            exact ordered_appG_ma has _ h1
              (fun hf => absurd hr (by rw [hf]; exact Bool.false_ne_true))
              (fun _ => mem_insOther_self "project_architect" a.1)
        · rw [if_neg hr]
          by_cases ha : has "architecture"
          · rw [if_pos ha, foldl_dA_fst]
            show UpstreamOrdered has
              (insOther "mockup_agent" (insOther "requirements_collector" a.1))
            have h1 : UpstreamOrdered has (insOther "requirements_collector" a.1) :=
              ordered_insRC has a.1 h
            exact ordered_appG_ma has _ h1
              (fun _ => mem_insOther_self "requirements_collector" a.1)
              (fun hf => absurd ha (by rw [hf]; exact Bool.false_ne_true))
          · rw [if_neg ha, foldl_dA_fst]
            show UpstreamOrdered has
              (insOther "mockup_agent" (insOther "project_architect"
                (insOther "requirements_collector" a.1)))
            have h1 : UpstreamOrdered has (insOther "requirements_collector" a.1) :=
              ordered_insRC has a.1 h
            have h2 : UpstreamOrdered has
                (insOther "project_architect" (insOther "requirements_collector" a.1)) :=
              ordered_appG_pa has _ h1
                (fun _ => mem_insOther_self "requirements_collector" a.1)
            exact ordered_appG_ma has _ h2
              (fun _ => subset_insOther "project_architect" _
                (mem_insOther_self "requirements_collector" a.1))
              (fun _ => mem_insOther_self "project_architect" _)
      · exact ⟨h, List.Subset.refl _⟩
  · -- exporter: wildcard requirement, skipped by downstream expansion
    unfold downstreamEntryStep
    split
    · exact ⟨h, List.Subset.refl _⟩
    · rw [if_pos (by decide)]
      exact ⟨h, List.Subset.refl _⟩

theorem ordered_foldl_entryStep (has : String → Bool) (produced : List String) :
    ∀ (l : List AgentEntry), (∀ e ∈ l, e ∈ AGENT_STORE) →
      ∀ (a : List String × Bool), UpstreamOrdered has a.1 →
      UpstreamOrdered has ((l.foldl (downstreamEntryStep has produced) a)).1 ∧
        a.1 ⊆ ((l.foldl (downstreamEntryStep has produced) a)).1 := by
  intro l
  induction l with
  | nil => intro _ a h; exact ⟨h, List.Subset.refl _⟩
  | cons hd tl ih =>
    intro hsub a h
    rw [List.foldl_cons]
    obtain ⟨h1, hsub1⟩ := ordered_downstreamEntryStep has produced hd
      (hsub hd (List.mem_cons_self _ _)) a h
    obtain ⟨h2, hsub2⟩ := ih (fun e he => hsub e (List.mem_cons_of_mem _ he)) _ h1
    exact ⟨h2, List.Subset.trans hsub1 hsub2⟩

theorem ordered_downstreamPass (has : String → Bool) (produced : List String)
    (st : List String × Bool) (h : UpstreamOrdered has st.1) :
    UpstreamOrdered has (downstreamPass has produced st).1 ∧
      st.1 ⊆ (downstreamPass has produced st).1 :=
  ordered_foldl_entryStep has produced AGENT_STORE (fun _ he => he) st h

theorem ordered_downstreamLoop (has : String → Bool) :
    ∀ (fuel : Nat) (result : List String), UpstreamOrdered has result →
      UpstreamOrdered has (downstreamLoop has fuel result) ∧
        result ⊆ downstreamLoop has fuel result := by
  intro fuel
  induction fuel with
  | zero => intro r h; exact ⟨h, List.Subset.refl _⟩
  | succ n ih =>
    intro r h
    unfold downstreamLoop
    obtain ⟨h1, hsub1⟩ := ordered_downstreamPass has (producedBy r) (r, false) h
    split
    · obtain ⟨h2, hsub2⟩ := ih _ h1
      exact ⟨h2, List.Subset.trans hsub1 hsub2⟩
    · exact ⟨h1, hsub1⟩

theorem ordered_resolveDownstream (has : String → Bool) (resolved : List String)
    (h : UpstreamOrdered has resolved) :
    UpstreamOrdered has (resolveDownstream has resolved) ∧
      resolved ⊆ resolveDownstream has resolved :=
  ordered_downstreamLoop has (AGENT_STORE.length + 1) resolved h

theorem filterMap_guard_eq_filter (p : String → Bool) :
    ∀ l : List String,
      l.filterMap (fun a => if p a then some a else Option.none) = l.filter p := by
  intro l
  induction l with
  | nil => rfl
  | cons hd tl ih =>
    rw [List.filterMap_cons, List.filter_cons]
    by_cases hp : p hd = true
    · rw [if_pos hp, if_pos hp, ih]
    · rw [if_neg hp, if_neg hp, ih]

/-- The final plan's id sequence is the phase filter of the resolved list. -/
theorem planFn_ids (intent : IntentResult) (st : ProjectState) :
    (planFn intent st).map Task.agent_id =
      (resolveDownstream (stateHasArtifact st)
        (resolveUpstream (stateHasArtifact st) (effectiveAgentIds intent))).filter
        (phaseKeep st.current_phase) := by
  unfold planFn
  rw [List.map_filterMap]
  rw [show (fun aid => (Option.map Task.agent_id
      (match getAgentById aid with
       | Option.none => Option.none
       | some entry =>
         if entry.phase_compatibility.contains "*" ||
             phaseMem st.current_phase entry.phase_compatibility
         then some { agent_id := aid, required_context := entry.requires }
         else Option.none))) =
      (fun aid => if phaseKeep st.current_phase aid then some aid else Option.none) by
    funext aid
    cases hga : getAgentById aid with
    | none =>
      have hk : phaseKeep st.current_phase aid = false := by
        unfold phaseKeep; rw [hga]
      rw [hk]
      rfl
    | some entry =>
      have hk : phaseKeep st.current_phase aid =
          (entry.phase_compatibility.contains "*" ||
           phaseMem st.current_phase entry.phase_compatibility) := by
        unfold phaseKeep; rw [hga]
      rw [hk]
      show Option.map Task.agent_id
          (if entry.phase_compatibility.contains "*" ||
              phaseMem st.current_phase entry.phase_compatibility
           then some { agent_id := aid, required_context := entry.requires }
           else Option.none) = _
      by_cases hc : (entry.phase_compatibility.contains "*" ||
          phaseMem st.current_phase entry.phase_compatibility) = true
      · rw [if_pos hc, if_pos hc]
        rfl
      · rw [if_neg hc, if_neg hc]
        rfl]
  exact filterMap_guard_eq_filter _ _

/-- The phase filter keeps the requirements producer whenever it keeps any
of its dependents, and the architecture producer whenever it keeps one of
its dependents. -/
theorem phaseKeep_rc (phase : PyVal) : phaseKeep phase "requirements_collector" = true := by
  show (entryRC.phase_compatibility.contains "*" ||
    phaseMem phase entryRC.phase_compatibility) = true
  rw [show entryRC.phase_compatibility.contains "*" = true from rfl]
  rw [Bool.true_or]

theorem phaseKeep_producer (phase : PyVal) (aid producer : String)
    (entry : AgentEntry) (art : String)
    (hentry : getAgentById aid = some entry)
    (hwild : entry.requires.contains "*" = false)
    (hart : art ∈ entry.requires)
    (hprod : getProducerForArtifact art = some producer)
    (hkeep : phaseKeep phase aid = true) :
    phaseKeep phase producer = true := by
  rcases getAgentById_inv aid entry hentry with
    ⟨rfl, rfl⟩ | ⟨rfl, rfl⟩ | ⟨rfl, rfl⟩ | ⟨rfl, rfl⟩ | ⟨rfl, rfl⟩
  · rw [show entryRC.requires = [] from rfl] at hart
    simp at hart
  · -- project_architect requires requirements, produced by the collector
    rw [show entryPA.requires = ["requirements"] from rfl] at hart
    rw [List.mem_singleton.mp hart] at hprod
    rw [prod_requirements] at hprod
    rw [← Option.some.inj hprod]
    exact phaseKeep_rc phase
  · -- execution_planner is kept only in phase architecture_complete,
    -- where the architect is also kept
    rw [show entryEP.requires = ["architecture"] from rfl] at hart
    rw [List.mem_singleton.mp hart] at hprod
    rw [prod_architecture] at hprod
    rw [← Option.some.inj hprod]
    have hk2 : (entryEP.phase_compatibility.contains "*" ||
        phaseMem phase entryEP.phase_compatibility) = true := hkeep
    rw [show entryEP.phase_compatibility.contains "*" = false from rfl,
      Bool.false_or] at hk2
    cases phase with
    | str s =>
      have hs : s = "architecture_complete" := by
        have h3 : (["architecture_complete"].contains s) = true := hk2
        simpa using h3
      subst hs
      rfl
    | none => exact absurd hk2 (by simp [phaseMem])
    | int _ => exact absurd hk2 (by simp [phaseMem])
    | bool _ => exact absurd hk2 (by simp [phaseMem])
    | list _ => exact absurd hk2 (by simp [phaseMem])
    | dict _ => exact absurd hk2 (by simp [phaseMem])
    | obj _ _ => exact absurd hk2 (by simp [phaseMem])
    | meth _ => exact absurd hk2 (by simp [phaseMem])
  · -- mockup_agent is kept only in phase requirements_complete
    rw [show entryMA.requires = ["requirements", "architecture"] from rfl] at hart
    have hk2 : (entryMA.phase_compatibility.contains "*" ||
        phaseMem phase entryMA.phase_compatibility) = true := hkeep
    rw [show entryMA.phase_compatibility.contains "*" = false from rfl,
      Bool.false_or] at hk2
    rcases List.mem_cons.mp hart with rfl | hart'
    · rw [prod_requirements] at hprod
      rw [← Option.some.inj hprod]
      exact phaseKeep_rc phase
    · rw [List.mem_singleton.mp hart'] at hprod
      rw [prod_architecture] at hprod
      rw [← Option.some.inj hprod]
      cases phase with
      | str s =>
        have hs : s = "requirements_complete" := by
          have h3 : (["requirements_complete"].contains s) = true := hk2
          simpa using h3
        subst hs
        rfl
      | none => exact absurd hk2 (by simp [phaseMem])
      | int _ => exact absurd hk2 (by simp [phaseMem])
      | bool _ => exact absurd hk2 (by simp [phaseMem])
      | list _ => exact absurd hk2 (by simp [phaseMem])
      | dict _ => exact absurd hk2 (by simp [phaseMem])
      | obj _ _ => exact absurd hk2 (by simp [phaseMem])
      | meth _ => exact absurd hk2 (by simp [phaseMem])
  · rw [show entryEXP.requires.contains "*" = true from rfl] at hwild
    exact absurd hwild (by simp)

/-- Part B of C3: everything `_resolve_upstream` puts in the plan is either
requested or the producer of some absent artifact — producers of present
artifacts are never inserted. -/
theorem addWithDeps_mem_inv (has : String → Bool) :
    ∀ (fuel : Nat) (aid : String) (acc : List String) (x : String),
      x ∈ addWithDeps has fuel aid acc →
      x ∈ acc ∨ x = aid ∨
        ∃ a, has a = false ∧ getProducerForArtifact a = some x := by
  intro fuel
  induction fuel with
  | zero => intro aid acc x hx; exact Or.inl hx
  | succ n ih =>
    intro aid acc x hx
    have aux : ∀ (arts : List String) (a : List String),
        x ∈ arts.foldl
          (fun a art =>
            if has art then a
            else
              match getProducerForArtifact art with
              | some producer => addWithDeps has n producer a
              | Option.none => a) a →
        x ∈ a ∨ ∃ ar, has ar = false ∧ getProducerForArtifact ar = some x := by
      intro arts
      induction arts with
      | nil => intro a hx2; exact Or.inl hx2
      | cons artHd artTl ihArts =>
        intro a hx2
        rw [List.foldl_cons] at hx2
        rcases ihArts _ hx2 with h2 | h2
        · by_cases hh : has artHd = true
          · rw [if_pos hh] at h2
            exact Or.inl h2
          · rw [if_neg hh] at h2
            have hh' : has artHd = false := by simpa using hh
            cases hp : getProducerForArtifact artHd with
            | none =>
              rw [hp] at h2
              exact Or.inl h2
            | some producer =>
              rw [hp] at h2
              rcases ih producer a x h2 with h3 | h3 | h3
              · exact Or.inl h3
              · exact Or.inr ⟨artHd, hh', by rw [hp, h3]⟩
              · exact Or.inr h3
        · exact Or.inr h2
    unfold addWithDeps at hx
    split at hx
    · exact Or.inl hx
    · split at hx
      · rcases List.mem_append.mp hx with h' | h'
        · exact Or.inl h'
        · exact Or.inr (Or.inl (List.mem_singleton.mp h'))
      · split at hx
        · rcases List.mem_append.mp hx with h' | h'
          · exact Or.inl h'
          · exact Or.inr (Or.inl (List.mem_singleton.mp h'))
        · rcases List.mem_append.mp hx with h' | h'
          · rcases aux _ _ h' with h2 | h2
            · exact Or.inl h2
            · exact Or.inr (Or.inr h2)
          · exact Or.inr (Or.inl (List.mem_singleton.mp h'))

theorem resolveUpstream_mem_inv (has : String → Bool) (ids : List String)
    (x : String) (hx : x ∈ resolveUpstream has ids) :
    x ∈ ids ∨ ∃ a, has a = false ∧ getProducerForArtifact a = some x := by
  unfold resolveUpstream at hx
  suffices h : ∀ (l : List String) (acc : List String),
      x ∈ l.foldl (fun acc aid => addWithDeps has AGENT_STORE.length aid acc) acc →
      x ∈ acc ∨ x ∈ l ∨
        ∃ a, has a = false ∧ getProducerForArtifact a = some x by
    rcases h ids [] hx with h' | h' | h'
    · simp at h'
    · exact Or.inl h'
    · exact Or.inr h'
  intro l
  induction l with
  | nil => intro acc h'; exact Or.inl h'
  | cons hd tl ihl =>
    intro acc h'
    rw [List.foldl_cons] at h'
    rcases ihl _ h' with h2 | h2 | h2
    · rcases addWithDeps_mem_inv has AGENT_STORE.length hd acc x h2 with h3 | h3 | h3
      · exact Or.inl h3
      · exact Or.inr (Or.inl (by rw [h3]; exact List.mem_cons_self _ _))
      · exact Or.inr (Or.inr h3)
    · exact Or.inr (Or.inl (List.mem_cons_of_mem _ h2))
    · exact Or.inr (Or.inr h2)

/-- C3 — (a) in the final emitted plan, every requested capability with a
non-wildcard required artifact absent from the session state appears
strictly after that artifact's producer; (b) upstream resolution inserts,
beyond the requested ids themselves, only producers of absent artifacts
(the producer of a present artifact is never inserted upstream). -/
theorem claim_C3_plan_dependency_order (intent : IntentResult) (st : ProjectState) :
    (∀ (aid : String) (entry : AgentEntry) (art producer : String),
      aid ∈ effectiveAgentIds intent →
      getAgentById aid = some entry →
      entry.requires.contains "*" = false →
      art ∈ entry.requires →
      stateHasArtifact st art = false →
      getProducerForArtifact art = some producer →
      aid ∈ (planFn intent st).map Task.agent_id →
      producer ∈ (planFn intent st).map Task.agent_id ∧
        ((planFn intent st).map Task.agent_id).indexOf producer <
          ((planFn intent st).map Task.agent_id).indexOf aid)
    ∧ (∀ x ∈ resolveUpstream (stateHasArtifact st) (effectiveAgentIds intent),
        x ∈ effectiveAgentIds intent ∨
        ∃ a, stateHasArtifact st a = false ∧
          getProducerForArtifact a = some x) := by
  constructor
  · intro aid entry art producer hreq hentry hwild hart habs hprod hplan
    have hup : UpstreamOrdered (stateHasArtifact st)
        (resolveUpstream (stateHasArtifact st) (effectiveAgentIds intent)) :=
      ordered_resolveUpstream _ _
    obtain ⟨hdown, _⟩ := ordered_resolveDownstream (stateHasArtifact st) _ hup
    have hmem : aid ∈ resolveDownstream (stateHasArtifact st)
        (resolveUpstream (stateHasArtifact st) (effectiveAgentIds intent)) :=
      (ordered_resolveDownstream (stateHasArtifact st) _ hup).2
        (requested_mem_resolveUpstream _ _ aid hreq)
    obtain ⟨hpmem, hlt⟩ := hdown aid entry art producer hmem hentry hwild hart habs hprod
    rw [planFn_ids] at hplan ⊢
    have hkaid : phaseKeep st.current_phase aid = true :=
      (List.mem_filter.mp hplan).2
    have hkprod : phaseKeep st.current_phase producer = true :=
      phaseKeep_producer st.current_phase aid producer entry art hentry hwild
        hart hprod hkaid
    obtain ⟨hfx, hfy, hflt⟩ := indexOf_filter_lt (phaseKeep st.current_phase) _
      producer aid hpmem hmem hkprod hkaid hlt
    exact ⟨hfx, hflt⟩
  · intro x hx
    exact resolveUpstream_mem_inv (stateHasArtifact st) _ x hx

/-- Witness for C3: requesting `project_architect` with requirements absent
puts `requirements_collector` strictly before it in the emitted plan. -/
theorem claim_C3_witness :
    stateHasArtifact exampleStateNoReq "requirements" = false ∧
    ("requirements_collector" ∈
      (planFn { primary_intent := "architecture_design",
                requires_agents := ["project_architect"], confidence := 9/10 }
        exampleStateNoReq).map Task.agent_id ∧
     ((planFn { primary_intent := "architecture_design",
                requires_agents := ["project_architect"], confidence := 9/10 }
        exampleStateNoReq).map Task.agent_id).indexOf "requirements_collector" <
       ((planFn { primary_intent := "architecture_design",
                  requires_agents := ["project_architect"], confidence := 9/10 }
          exampleStateNoReq).map Task.agent_id).indexOf "project_architect") :=
  ⟨rfl,
   (claim_C3_plan_dependency_order
      { primary_intent := "architecture_design",
        requires_agents := ["project_architect"], confidence := 9/10 }
      exampleStateNoReq).1
     "project_architect" entryPA "requirements" "requirements_collector"
     (by decide) rfl rfl (by decide) rfl rfl (by decide)⟩

/-! ### C1 — the "generate architecture" scenario -/

/-- The task loop's cons step, phrased through the task outcome. -/
theorem runTasks_cons_outcome (getf : AdapterGet) (reg : Registry)
    (sid u : String) (now : Int) (t : Task) (rest : List Task)
    (ps : ProjectState) (w : World) (res : List RunResult) :
    runTasks getf reg sid u now (t :: rest) ps w res =
      match taskOutcome reg u t ps with
      | Option.none => runTasks getf reg sid u now rest ps w res
      | some result =>
        (if result.state_delta.truthy then
          (dictItems result.state_delta).bind
            (fun items => smUpdate getf w sid items now)
         else Except.ok (ps, w)).bind
          (fun psw =>
            (match phaseTransitionMap t.agent_id with
             | some next_phase =>
               smUpdate getf psw.2 sid [("current_phase", PyVal.str next_phase)] now
             | Option.none => Except.ok psw).bind
              (fun psw2 =>
                runTasks getf reg sid u now rest psw2.1 psw2.2 (res ++ [result]))) := by
  conv_lhs => rw [runTasks]
  unfold taskOutcome
  cases reg t.agent_id with
  | none => rfl
  | some ag =>
    cases runAgent ag t.agent_id (extractContext ps t.required_context) u with
    | none => rfl
    | some r => rfl

/-- Two registries drive the task loop identically when every task has the
same outcome under both. -/
theorem runTasks_congr (getf : AdapterGet) (sid u : String) (now : Int)
    (reg1 reg2 : Registry) :
    ∀ (tasks : List Task) (ps : ProjectState) (w : World) (res : List RunResult),
      (∀ t ∈ tasks, ∀ ps' : ProjectState,
        taskOutcome reg1 u t ps' = taskOutcome reg2 u t ps') →
      runTasks getf reg1 sid u now tasks ps w res =
        runTasks getf reg2 sid u now tasks ps w res := by
  intro tasks
  induction tasks with
  | nil => intro ps w res _; rfl
  | cons t rest ih =>
    intro ps w res h
    have hrest : ∀ t' ∈ rest, ∀ ps' : ProjectState,
        taskOutcome reg1 u t' ps' = taskOutcome reg2 u t' ps' :=
      fun t' ht' => h t' (List.mem_cons_of_mem _ ht')
    rw [runTasks_cons_outcome, runTasks_cons_outcome,
      h t (List.mem_cons_self _ _) ps]
    cases taskOutcome reg2 u t ps with
    | none => exact ih ps w res hrest
    | some r =>
      show Except.bind _ _ = Except.bind _ _
      cases (if r.state_delta.truthy then
          (dictItems r.state_delta).bind
            (fun items => smUpdate getf w sid items now)
        else Except.ok (ps, w)) with
      | error e => rfl
      | ok psw =>
        show ((match phaseTransitionMap t.agent_id with
               | some next_phase =>
                 smUpdate getf psw.2 sid [("current_phase", PyVal.str next_phase)] now
               | Option.none => Except.ok psw).bind
                (fun psw2 =>
                  runTasks getf reg1 sid u now rest psw2.1 psw2.2 (res ++ [r]))) =
             ((match phaseTransitionMap t.agent_id with
               | some next_phase =>
                 smUpdate getf psw.2 sid [("current_phase", PyVal.str next_phase)] now
               | Option.none => Except.ok psw).bind
                (fun psw2 =>
                  runTasks getf reg2 sid u now rest psw2.1 psw2.2 (res ++ [r])))
        cases (match phaseTransitionMap t.agent_id with
          | some next_phase =>
            smUpdate getf psw.2 sid [("current_phase", PyVal.str next_phase)] now
          | Option.none => Except.ok psw) with
        | error e => rfl
        | ok psw2 =>
          exact ih psw2.1 psw2.2 (res ++ [r]) hrest

/-- `runArchitect` only looks at the adapter through `process`: pointwise
equal adapters give the same outcome. -/
theorem runArchitect_congr (ag1 ag2 : Agent) (context : List (String × PyVal))
    (u : String) (h : ∀ input, ag1.process input = ag2.process input) :
    runArchitect ag1 context u = runArchitect ag2 context u := by
  unfold runArchitect
  simp only [h]

/-- Two registries that both wire a task's agent give the same outcome as
soon as the two adapters drive `runAgent` identically. -/
theorem taskOutcome_eq_of_some {reg1 reg2 : Registry} {u : String} {t : Task}
    {ps' : ProjectState} (ag1 ag2 : Agent)
    (h1 : reg1 t.agent_id = some ag1) (h2 : reg2 t.agent_id = some ag2)
    (h : runAgent ag1 t.agent_id (extractContext ps' t.required_context) u =
         runAgent ag2 t.agent_id (extractContext ps' t.required_context) u) :
    taskOutcome reg1 u t ps' = taskOutcome reg2 u t ps' := by
  unfold taskOutcome
  rw [h1, h2]
  exact h

/-- A task whose agent id has no `_run_agent` dispatch branch has outcome
`none` under every registry; in particular any two registries agree on it
when the second leaves it unwired. -/
theorem taskOutcome_none_undispatched {reg1 reg2 : Registry} {u : String}
    {t : Task} {ps' : ProjectState}
    (h2 : reg2 t.agent_id = Option.none)
    (hna : ¬ t.agent_id = "project_architect")
    (hnb : ¬ t.agent_id = "requirements_collector") :
    taskOutcome reg1 u t ps' = taskOutcome reg2 u t ps' := by
  unfold taskOutcome
  rw [h2]
  cases hr : reg1 t.agent_id with
  | none => rfl
  | some a =>
    show runAgent a t.agent_id (extractContext ps' t.required_context) u =
      Option.none
    unfold runAgent
    rw [if_neg hna, if_neg hnb]

/-- A whole request is driven identically by two registries whose per-task
outcomes agree on every task of the emitted plan. -/
theorem processRequest_congr (getf : AdapterGet) (reg1 reg2 : Registry)
    (w : World) (u sid : String) (now : Int)
    (h : ∀ (ps : ProjectState) (w1 : World),
      smLoad getf w sid now = Except.ok (ps, w1) →
      ∀ t ∈ planFn (analyzeRuleBased (pyStrip u) ps.current_phase) ps,
        ∀ ps' : ProjectState,
          taskOutcome reg1 u t ps' = taskOutcome reg2 u t ps') :
    processRequest getf reg1 w u sid now = processRequest getf reg2 w u sid now := by
  unfold processRequest
  cases hld : smLoad getf w sid now with
  | error e => rfl
  | ok pw =>
    show autoRun analyzeRuleBased planFn getf reg1 u sid now pw.1 pw.2 =
      autoRun analyzeRuleBased planFn getf reg2 u sid now pw.1 pw.2
    unfold autoRun
    by_cases hemp :
      (planFn (analyzeRuleBased (pyStrip u) pw.1.current_phase) pw.1).isEmpty = true
    · rw [if_pos hemp, if_pos hemp]
    · rw [if_neg hemp, if_neg hemp,
        runTasks_congr getf sid u now reg1 reg2 _ pw.1 pw.2 [] (h pw.1 pw.2 hld)]

/-- C1's counterexample — in the scenario (phase `requirements_complete`,
requirements populated, utterance `"generate architecture"`), the emitted
plan is *not* the single task `[project_architect]`: downstream expansion
also schedules `mockup_agent` (phase-compatible with
`requirements_complete`), so the plan is
`[project_architect, mockup_agent]`. -/
theorem claim_C1_counterexample :
    stateHasArtifact c1State "requirements" = true ∧
    ((processRequest inMemGet c1Reg c1World "generate architecture" "s1" 7).toOption.map
      (fun rw => (rw.1.plan.getD []).map Task.agent_id)) =
      some ["project_architect", "mockup_agent"] ∧
    (["project_architect", "mockup_agent"] : List String) ≠ ["project_architect"] :=
  ⟨rfl, rfl, by decide⟩

/-- C1 (amended) — in the scenario, with the architect adapter wired and
returning the shipped agent's result shape, the plan is exactly
`[project_architect, mockup_agent]` (no upstream re-insertion of
`requirements_collector`); after the run the architecture artifact is
populated and the session phase is `"architecture_complete"`. -/
theorem claim_C1_architecture_scenario (reg : Registry) (ag : Agent)
    (hreg : reg "project_architect" = some ag)
    (hproc : ∀ input, ag.process input = Except.ok (PyVal.dict c1Raw)) :
    ((processRequest inMemGet reg c1World "generate architecture" "s1" 7).toOption.map
      (fun rw => (rw.1.plan.getD []).map Task.agent_id)) =
      some ["project_architect", "mockup_agent"]
    ∧ (((processRequest inMemGet reg c1World "generate architecture" "s1" 7).toOption.bind
        (fun rw => cacheGet rw.2.cache "s1")).map
        (fun stF => (stateHasArtifact stF "architecture", stF.current_phase))) =
      some (true, PyVal.str "architecture_complete") := by
  have hout : ∀ (ps : ProjectState) (w1 : World),
      smLoad inMemGet c1World "s1" 7 = Except.ok (ps, w1) →
      ∀ t ∈ planFn (analyzeRuleBased (pyStrip "generate architecture")
        ps.current_phase) ps,
        ∀ ps' : ProjectState,
          taskOutcome reg "generate architecture" t ps' =
          taskOutcome c1Reg "generate architecture" t ps' := by
    intro ps w1 hld t ht ps'
    rw [show smLoad inMemGet c1World "s1" 7 = Except.ok (c1State, c1World) from rfl]
      at hld
    injection hld with h1
    injection h1 with hps hw1
    subst hps
    rw [show planFn (analyzeRuleBased (pyStrip "generate architecture")
        c1State.current_phase) c1State =
      [{ agent_id := "project_architect", required_context := ["requirements"] },
       { agent_id := "mockup_agent",
         required_context := ["requirements", "architecture"] }] from rfl] at ht
    simp only [List.mem_cons, List.not_mem_nil, or_false] at ht
    rcases ht with ht | ht
    · subst ht
      exact taskOutcome_eq_of_some ag c1Agent hreg rfl
        (runArchitect_congr ag c1Agent _ "generate architecture"
          (fun input => (hproc input).trans rfl))
    · subst ht
      exact taskOutcome_none_undispatched rfl (by decide) (by decide)
  have hcong : processRequest inMemGet reg c1World "generate architecture" "s1" 7 =
      processRequest inMemGet c1Reg c1World "generate architecture" "s1" 7 :=
    processRequest_congr inMemGet reg c1Reg c1World "generate architecture" "s1" 7 hout
  rw [hcong]
  exact ⟨rfl, rfl⟩

/-- C1's witness: the amended scenario theorem applied to the reference
registry and architect adapter. -/
theorem claim_C1_witness :
    ((processRequest inMemGet c1Reg c1World "generate architecture" "s1" 7).toOption.map
      (fun rw => (rw.1.plan.getD []).map Task.agent_id)) =
      some ["project_architect", "mockup_agent"]
    ∧ (((processRequest inMemGet c1Reg c1World "generate architecture" "s1" 7).toOption.bind
        (fun rw => cacheGet rw.2.cache "s1")).map
        (fun stF => (stateHasArtifact stF "architecture", stF.current_phase))) =
      some (true, PyVal.str "architecture_complete") :=
  claim_C1_architecture_scenario c1Reg c1Agent rfl (fun _ => rfl)

/-- C9 — the first half of the claim holds, the second does not.  With the
plan `[requirements_collector, project_architect, mockup_agent]` and a
collector adapter that raises, execution continues (the architect still
runs: the final phase is `"architecture_complete"`), but the failing task
is *not* recorded: `_run_agent` swallows the exception and returns `None`,
`process_request` skips `None` results, so the per-task results visible to
the caller hold exactly one entry — the architect's — and carry no
status-`"error"` record for the collector. -/
theorem claim_C9_error_not_recorded :
    ((processRequest inMemGet c9Reg c9World "generate architecture" "s9" 7).toOption.map
      (fun rw => (rw.1.plan.getD []).map Task.agent_id)) =
      some ["requirements_collector", "project_architect", "mockup_agent"]
    ∧ (((processRequest inMemGet c9Reg c9World "generate architecture" "s9" 7).toOption.bind
        (fun rw => cacheGet rw.2.cache "s9")).map (fun st => st.current_phase)) =
      some (PyVal.str "architecture_complete")
    ∧ ((processRequest inMemGet c9Reg c9World "generate architecture" "s9" 7).toOption.map
        (fun rw => rw.1.artifacts.map RunResult.content)) =
      some [PyVal.str "Architecture generated"] :=
  ⟨rfl, rfl, rfl⟩

/-- Splitting a successful `Except.bind`. -/
theorem except_bind_ok {α β : Type} {ma : Except String α} {f : α → Except String β}
    {b : β} (h : ma.bind f = Except.ok b) :
    ∃ a, ma = Except.ok a ∧ f a = Except.ok b := by
  cases ma with
  | error e => exact absurd h (by simp [Except.bind])
  | ok a => exact ⟨a, rfl, h⟩

/-- Splitting a successful `Except.map`. -/
theorem except_map_ok {α β : Type} {ma : Except String α} {f : α → β}
    {b : β} (h : ma.map f = Except.ok b) :
    ∃ a, ma = Except.ok a ∧ f a = b := by
  cases ma with
  | error e => exact absurd h (by simp [Except.map])
  | ok a =>
    refine ⟨a, rfl, ?_⟩
    have h' : Except.ok (ε := String) (f a) = Except.ok b := h
    injection h'

/-- Looking up the key an upsert just wrote returns the written value. -/
theorem pyGet_upsert_self (kvs : List (String × PyVal)) (k : String) (v : PyVal) :
    pyGet (upsert kvs k v) k = some v := by
  unfold upsert
  by_cases h : (kvs.find? (fun kv => kv.1 = k)).isSome
  · rw [if_pos h]
    induction kvs with
    | nil => simp [List.find?] at h
    | cons x xs ih =>
      by_cases hx : x.1 = k
      · unfold pyGet
        rw [List.map_cons, if_pos hx,
          List.find?_cons_of_pos _ (by simp)]
        rfl
      · unfold pyGet
        rw [List.map_cons, if_neg hx,
          List.find?_cons_of_neg _ (by simp [hx])]
        have h' : (xs.find? (fun kv => kv.1 = k)).isSome := by
          rw [List.find?_cons_of_neg _ (by simp [hx])] at h
          exact h
        exact ih h'
  · rw [if_neg h]
    unfold pyGet
    rw [List.find?_append,
      Option.not_isSome_iff_eq_none.mp h,
      Option.none_or, List.find?_cons_of_pos _ (by simp)]
    rfl

/-- The record a manual-mode run persists carries the manual marker keys. -/
theorem manualMarker_manualRecord (cid : String) (st : ProjectState) :
    manualMarker cid (manualRecord cid st) = true := by
  show (cid == cid) = true
  exact beq_self_eq_true cid

/-- C4 — a manual-mode request with a selected capability id never invokes
the intent classifier or the plan builder (any two give the identical run),
the emitted plan is exactly that one capability with its declared context,
the reported intent is the literal label `"manual"`, and the persisted
session record carries `{mode:"manual", selectedCapabilityId}`. -/
theorem claim_C4_manual_mode
    (classify1 classify2 : String → PyVal → IntentResult)
    (planBuild1 planBuild2 : IntentResult → ProjectState → List Task)
    (getf : AdapterGet) (reg : Registry) (w : World) (u sid cid : String)
    (now : Int) (ps : ProjectState) (w1 : World) (resp : Response) (w' : World)
    (hld : smLoad getf w sid now = Except.ok (ps, w1))
    (hrun : processRequestOpts classify1 planBuild1 getf reg w u sid now
      { mode := some "manual", selectedCapabilityId := some cid } =
      Except.ok (resp, w')) :
    processRequestOpts classify2 planBuild2 getf reg w u sid now
      { mode := some "manual", selectedCapabilityId := some cid } =
      Except.ok (resp, w')
    ∧ resp.intent = some { primary_intent := "manual",
                           requires_agents := [cid], confidence := 1 }
    ∧ resp.plan = some [{ agent_id := cid,
                          required_context :=
                            ((getAgentById cid).map AgentEntry.requires).getD [] }]
    ∧ ((pyGet w'.db sid).map (manualMarker cid)) = some true := by
  have hsame : processRequestOpts classify2 planBuild2 getf reg w u sid now
      { mode := some "manual", selectedCapabilityId := some cid } =
      processRequestOpts classify1 planBuild1 getf reg w u sid now
        { mode := some "manual", selectedCapabilityId := some cid } := by
    unfold processRequestOpts
    cases smLoad getf w sid now with
    | error e => rfl
    | ok pw => rfl
  refine ⟨hsame.trans hrun, ?_⟩
  have hm : manualRun getf reg u sid cid now ps w1 = Except.ok (resp, w') := by
    unfold processRequestOpts at hrun
    rw [hld] at hrun
    exact hrun
  unfold manualRun at hm
  obtain ⟨psw, hrt, hm⟩ := except_bind_ok hm
  obtain ⟨message, hsy, hm⟩ := except_bind_ok hm
  obtain ⟨hist, hh, hm⟩ := except_map_ok hm
  injection hm with hresp hw
  subst hresp
  subst hw
  refine ⟨rfl, rfl, ?_⟩
  show ((pyGet (storeSave psw.2.1.db sid
    (manualRecord cid (appendTurns psw.1 hist u message))) sid).map
      (manualMarker cid)) = some true
  rw [show storeSave psw.2.1.db sid
      (manualRecord cid (appendTurns psw.1 hist u message)) =
    upsert psw.2.1.db sid
      (manualRecord cid (appendTurns psw.1 hist u message)) from rfl,
    pyGet_upsert_self, Option.map_some', manualMarker_manualRecord]

/-- C4's witness: the manual-mode theorem applied to a fresh session with
the `exporter` capability selected, a registry with no adapters, and two
different classifier / plan-builder pairs. -/
theorem claim_C4_witness :
    smLoad inMemGet c4World "s4" 7 = Except.ok (c4State, c4World)
    ∧ processRequestOpts
        (fun _ _ => { primary_intent := "unknown", requires_agents := [],
                      confidence := 0 })
        (fun _ _ => []) inMemGet (fun _ => Option.none) c4World
        "export everything" "s4" 7
        { mode := some "manual", selectedCapabilityId := some "exporter" } =
        Except.ok (c4Resp, c4World2)
    ∧ c4Resp.intent = some { primary_intent := "manual",
                             requires_agents := ["exporter"], confidence := 1 }
    ∧ c4Resp.plan = some [{ agent_id := "exporter",
                            required_context :=
                              ((getAgentById "exporter").map AgentEntry.requires).getD [] }]
    ∧ ((pyGet c4World2.db "s4").map (manualMarker "exporter")) = some true := by
  obtain ⟨h1, h2, h3, h4⟩ :=
    claim_C4_manual_mode analyzeRuleBased
      (fun _ _ => { primary_intent := "unknown", requires_agents := [],
                    confidence := 0 })
      planFn (fun _ _ => []) inMemGet (fun _ => Option.none) c4World
      "export everything" "s4" "exporter" 7 c4State c4World c4Resp c4World2
      rfl rfl
  exact ⟨rfl, h1, h2, h3, h4⟩

/-- Assigning any field other than `conversation_history` leaves the
conversation history unchanged. -/
theorem setField_history (st : ProjectState) (k : String) (v : PyVal)
    (hk : ¬ k = "conversation_history") :
    (st.setField k v).conversation_history = st.conversation_history := by
  unfold ProjectState.setField
  repeat' split
  all_goals first
  | rfl
  | exact absurd (by assumption) hk

/-- `_merge_or_set` on any key other than `conversation_history` leaves the
conversation history unchanged. -/
theorem mergeOrSet_history (st : ProjectState) (k : String) (v : PyVal)
    (st2 : ProjectState) (hk : ¬ k = "conversation_history")
    (h : mergeOrSet st k v = Except.ok st2) :
    st2.conversation_history = st.conversation_history := by
  unfold mergeOrSet at h
  by_cases h1 : ProjectState.hasAttr k
  · rw [if_neg (by simp [h1])] at h
    by_cases h2 : ProjectState.declaredFields.contains k
    · rw [if_pos h2] at h
      cases hf : st.getField? k with
      | none =>
        rw [hf] at h
        injection h with h'
        rw [← h']
      | some cur =>
        rw [hf] at h
        injection h with h'
        rw [← h']
        exact setField_history st k _ hk
    · rw [if_neg h2] at h
      exact absurd h (by simp)
  · rw [if_pos (by simp [h1])] at h
    injection h with h'
    rw [← h']

/-- `_apply_delta` through any root attribute other than
`conversation_history` leaves the conversation history unchanged. -/
theorem applyDelta_history (st : ProjectState) (k : String) (v : PyVal)
    (st2 : ProjectState) (hk : ¬ keyRoot k = "conversation_history")
    (h : applyDelta st k v = Except.ok st2) :
    st2.conversation_history = st.conversation_history := by
  unfold applyDelta at h
  unfold keyRoot at hk
  by_cases hdot : strIn "." k
  · rw [if_neg (by simp [hdot])] at h
    rw [if_neg (by simp [hdot])] at hk
    cases hsp : k.splitOn "." with
    | nil =>
      rw [hsp] at h hk
      have h' : mergeOrSet st k v = Except.ok st2 := h
      have hk' : ¬ k = "conversation_history" := hk
      exact mergeOrSet_history st k v st2 hk' h'
    | cons root rest =>
      rw [hsp] at h hk
      have h' : (match st.getField? root with
        | Option.none => Except.error "AttributeError"
        | some v1 =>
          Except.map (fun v2 => st.setField root v2) (applyPath v1 rest v)) =
          Except.ok st2 := h
      have hk' : ¬ root = "conversation_history" := hk
      cases hgf : st.getField? root with
      | none =>
        rw [hgf] at h'
        exact absurd h' (by simp)
      | some vv =>
        rw [hgf] at h'
        obtain ⟨v2, -, h3⟩ := except_map_ok h'
        rw [← h3]
        exact setField_history st root v2 hk'
  · rw [if_pos (by simp [hdot])] at h
    rw [if_pos (by simp [hdot])] at hk
    exact mergeOrSet_history st k v st2 hk h

/-- Folding a delta whose keys never assign through `conversation_history`
leaves the conversation history unchanged. -/
theorem foldlM_history : ∀ (delta : List (String × PyVal)) (s0 s1 : ProjectState),
    (∀ kv ∈ delta, ¬ keyRoot kv.1 = "conversation_history") →
    delta.foldlM (fun s (kv : String × PyVal) => applyDelta s kv.1 kv.2) s0 =
      Except.ok s1 →
    s1.conversation_history = s0.conversation_history := by
  intro delta
  induction delta with
  | nil =>
    intro s0 s1 _ h
    have h' : (Except.ok s0 : Except String ProjectState) = Except.ok s1 := h
    injection h' with h1
    rw [← h1]
  | cons kv rest ih =>
    intro s0 s1 hkeys h
    rw [List.foldlM_cons] at h
    obtain ⟨sMid, hap, hrest⟩ := except_bind_ok h
    have h1 := applyDelta_history s0 kv.1 kv.2 sMid
      (hkeys kv (List.mem_cons_self _ _)) hap
    have h2 := ih sMid s1 (fun kv' hkv' => hkeys kv' (List.mem_cons_of_mem _ hkv')) hrest
    exact h2.trans h1

/-- Looking up the session an update just cached returns the new state. -/
theorem cacheGet_cachePut_self (cache : List (String × ProjectState))
    (sid : String) (st : ProjectState) :
    cacheGet (cachePut cache sid st) sid = some st := by
  unfold cachePut
  by_cases h : (cache.find? (fun kv => kv.1 = sid)).isSome
  · rw [if_pos h]
    induction cache with
    | nil => simp [List.find?] at h
    | cons x xs ih =>
      by_cases hx : x.1 = sid
      · unfold cacheGet
        rw [List.map_cons, if_pos hx, List.find?_cons_of_pos _ (by simp)]
        rfl
      · unfold cacheGet
        rw [List.map_cons, if_neg hx, List.find?_cons_of_neg _ (by simp [hx])]
        have h' : (xs.find? (fun kv => kv.1 = sid)).isSome := by
          rw [List.find?_cons_of_neg _ (by simp [hx])] at h
          exact h
        exact ih h'
  · rw [if_neg h]
    unfold cacheGet
    rw [List.find?_append,
      Option.not_isSome_iff_eq_none.mp h,
      Option.none_or, List.find?_cons_of_pos _ (by simp)]
    rfl

/-- `StateManager.update` on a cached session with a history-safe delta:
the updated state keeps the conversation history and is re-cached. -/
theorem smUpdate_history (getf : AdapterGet) (w : World) (sid : String)
    (delta : List (String × PyVal)) (now : Int) (ps : ProjectState)
    (hsync : cacheGet w.cache sid = some ps)
    (hkeys : ∀ kv ∈ delta, ¬ keyRoot kv.1 = "conversation_history")
    (st2 : ProjectState) (w2 : World)
    (h : smUpdate getf w sid delta now = Except.ok (st2, w2)) :
    st2.conversation_history = ps.conversation_history ∧
    cacheGet w2.cache sid = some st2 := by
  unfold smUpdate at h
  rw [show smLoad getf w sid now = Except.ok (ps, w) from by
    unfold smLoad; rw [hsync]] at h
  have h2 : ((delta.foldlM (fun s (kv : String × PyVal) => applyDelta s kv.1 kv.2) ps).map
      (fun stX =>
        (stX.setField "updated_at" (PyVal.int now),
         ({ cache := cachePut w.cache sid (stX.setField "updated_at" (PyVal.int now)),
            db := storeSave w.db sid
              (stX.setField "updated_at" (PyVal.int now)).dump } : World)))) =
      Except.ok (st2, w2) := h
  obtain ⟨stX, hfold, h3⟩ := except_map_ok h2
  injection h3 with hst hw2
  constructor
  · rw [← hst, setField_history _ _ _ (by decide)]
    exact foldlM_history delta ps stX hkeys hfold
  · rw [← hw2, ← hst]
    exact cacheGet_cachePut_self w.cache sid _

/-- The task loop preserves the conversation history and keeps the threaded
state in sync with the cache, whenever every produced delta is
history-safe. -/
theorem runTasks_history (getf : AdapterGet) (reg : Registry) (sid u : String)
    (now : Int)
    (hreg : ∀ (t : Task) (ps' : ProjectState) (r : RunResult),
      taskOutcome reg u t ps' = some r → deltaKeysOk r.state_delta = true) :
    ∀ (tasks : List Task) (ps : ProjectState) (w : World) (res : List RunResult)
      (psF : ProjectState) (wF : World) (resF : List RunResult),
      cacheGet w.cache sid = some ps →
      runTasks getf reg sid u now tasks ps w res = Except.ok (psF, wF, resF) →
      psF.conversation_history = ps.conversation_history ∧
      cacheGet wF.cache sid = some psF := by
  intro tasks
  induction tasks with
  | nil =>
    intro ps w res psF wF resF hsync h
    have h' : (Except.ok (ps, w, res) :
        Except String (ProjectState × World × List RunResult)) =
        Except.ok (psF, wF, resF) := h
    injection h' with h1
    injection h1 with hps h2
    injection h2 with hw hres
    rw [← hps]
    exact ⟨rfl, hw ▸ hsync⟩
  | cons t rest ih =>
    intro ps w res psF wF resF hsync h
    rw [runTasks_cons_outcome] at h
    cases ho : taskOutcome reg u t ps with
    | none =>
      rw [ho] at h
      exact ih ps w res psF wF resF hsync h
    | some r =>
      rw [ho] at h
      have hdel : deltaKeysOk r.state_delta = true := hreg t ps r ho
      obtain ⟨psw1, hup, h⟩ := except_bind_ok h
      have hist1 : psw1.1.conversation_history = ps.conversation_history ∧
          cacheGet psw1.2.cache sid = some psw1.1 := by
        by_cases htr : r.state_delta.truthy = true
        · rw [if_pos htr] at hup
          obtain ⟨items, hitems, hup2⟩ := except_bind_ok hup
          have hkv : ∀ kv ∈ items, ¬ keyRoot kv.1 = "conversation_history" := by
            intro kv hkv
            cases hsd : r.state_delta with
            | dict kvs =>
              rw [hsd] at hitems hdel
              have hitems' : (Except.ok kvs :
                  Except String (List (String × PyVal))) = Except.ok items := hitems
              injection hitems' with hi
              have hdel' : kvs.all
                  (fun kv => !(keyRoot kv.1 == "conversation_history")) = true := hdel
              rw [hi] at hdel'
              have := (List.all_eq_true.mp hdel') kv hkv
              simpa using this
            | none => rw [hsd] at hitems; exact absurd hitems (by simp [dictItems])
            | str s => rw [hsd] at hitems; exact absurd hitems (by simp [dictItems])
            | int n => rw [hsd] at hitems; exact absurd hitems (by simp [dictItems])
            | bool b => rw [hsd] at hitems; exact absurd hitems (by simp [dictItems])
            | list xs => rw [hsd] at hitems; exact absurd hitems (by simp [dictItems])
            | obj n fs => rw [hsd] at hitems; exact absurd hitems (by simp [dictItems])
            | meth n => rw [hsd] at hitems; exact absurd hitems (by simp [dictItems])
          exact smUpdate_history getf w sid items now ps hsync hkv psw1.1 psw1.2
            ((Prod.mk.eta (p := psw1)) ▸ hup2)
        · rw [if_neg htr] at hup
          have hup' : (Except.ok (ps, w) : Except String (ProjectState × World)) =
              Except.ok psw1 := hup
          injection hup' with h1
          rw [← h1]
          exact ⟨rfl, hsync⟩
      obtain ⟨psw2, hph, h⟩ := except_bind_ok h
      have hist2 : psw2.1.conversation_history = ps.conversation_history ∧
          cacheGet psw2.2.cache sid = some psw2.1 := by
        cases hmap : phaseTransitionMap t.agent_id with
        | none =>
          rw [hmap] at hph
          have hph' : (Except.ok psw1 : Except String (ProjectState × World)) =
              Except.ok psw2 := hph
          injection hph' with h1
          rw [← h1]
          exact hist1
        | some nxt =>
          rw [hmap] at hph
          have := smUpdate_history getf psw1.2 sid
            [("current_phase", PyVal.str nxt)] now psw1.1 hist1.2
            (by intro kv hkv
                simp only [List.mem_singleton] at hkv
                subst hkv
                exact (by decide : ¬ keyRoot "current_phase" = "conversation_history"))
            psw2.1 psw2.2 ((Prod.mk.eta (p := psw2)) ▸ hph)
          exact ⟨this.1.trans hist1.1, this.2⟩
      have hres := ih psw2.1 psw2.2 (res ++ [r]) psF wF resF hist2.2 h
      exact ⟨hres.1.trans hist2.1, hres.2⟩

/-- Alternation over an append, with the parity flag advanced by the
prefix's length. -/
theorem altRoles_append_general : ∀ (xs ys : List PyVal) (b : Bool),
    altRoles (xs ++ ys) b =
      (altRoles xs b && altRoles ys (if xs.length % 2 = 0 then b else !b)) := by
  intro xs
  induction xs with
  | nil => intro ys b; simp [altRoles]
  | cons e rest ih =>
    intro ys b
    show (roleIs e (if b then "user" else "assistant") &&
        altRoles (rest ++ ys) (!b)) =
      ((roleIs e (if b then "user" else "assistant") && altRoles rest (!b)) &&
        altRoles ys (if (rest.length + 1) % 2 = 0 then b else !b))
    rw [ih ys (!b), Bool.and_assoc]
    have hflip : (if rest.length % 2 = 0 then !b else !(!b)) =
        (if (rest.length + 1) % 2 = 0 then b else !b) := by
      by_cases hp : rest.length % 2 = 0
      · rw [if_pos hp, if_neg (by omega)]
      · rw [if_neg hp, if_pos (by omega), Bool.not_not]
    rw [hflip]

/-- Appending one user turn and one assistant turn to an even-length
alternating transcript keeps it alternating. -/
theorem altRoles_append_two (xs : List PyVal) (u m : String)
    (heven : xs.length % 2 = 0) (hx : altRoles xs true = true) :
    altRoles (xs ++ [userEntry u, asstEntry m]) true = true := by
  rw [altRoles_append_general, if_pos heven, hx]
  rfl

/-- Reading the session history through a cache hit. -/
theorem sessionHist_eq (w : World) (sid : String) (st : ProjectState)
    (l : List PyVal) (hc : cacheGet w.cache sid = some st)
    (hh : st.conversation_history = PyVal.list l) :
    sessionHist w sid = l := by
  unfold sessionHist
  rw [hc]
  show (match st.conversation_history with
        | PyVal.list xs => xs
        | _ => []) = l
  rw [hh]

/-- A reachable session's history has even length. -/
theorem sessionOk_even (sid : String) (w : World) (h : sessionOk sid w) :
    (sessionHist w sid).length % 2 = 0 := by
  cases h with
  | inl hf =>
    unfold sessionHist
    rw [hf.1]
    rfl
  | inr hc =>
    obtain ⟨st, xs, hcg, hh, he⟩ := hc
    rw [sessionHist_eq w sid st xs hcg hh]
    exact he

/-- One processed request (load succeeds and the plan is non-empty) on a
reachable world appends exactly one user entry and one assistant entry to
the session transcript, regardless of how many tasks ran. -/
theorem turn_step (reg : Registry) (u sid : String) (now : Int) (w : World)
    (hreg : ∀ (u' : String) (t : Task) (ps' : ProjectState) (r : RunResult),
      taskOutcome reg u' t ps' = some r → deltaKeysOk r.state_delta = true)
    (hok : sessionOk sid w)
    (hexec : turnExecuted inMemGet u sid now w = true)
    (resp : Response) (w' : World)
    (h : processRequest inMemGet reg w u sid now = Except.ok (resp, w')) :
    sessionOk sid w' ∧
    sessionHist w' sid = sessionHist w sid ++ [userEntry u, asstEntry resp.message] := by
  obtain ⟨ps, w1, hld, xs, hhist, heven, hsync, hsh⟩ :
      ∃ ps w1, smLoad inMemGet w sid now = Except.ok (ps, w1) ∧
        ∃ xs, ps.conversation_history = PyVal.list xs ∧ xs.length % 2 = 0 ∧
          cacheGet w1.cache sid = some ps ∧ sessionHist w sid = xs := by
    cases hok with
    | inl hfresh =>
      obtain ⟨hc, hdb⟩ := hfresh
      refine ⟨defaultProjectState sid now,
        { cache := cachePut w.cache sid (defaultProjectState sid now), db := w.db },
        ?_, [], rfl, rfl, ?_, ?_⟩
      · unfold smLoad
        rw [hc, show inMemGet w.db sid = Except.ok Option.none from by
          show Except.ok (pyGet w.db sid) = Except.ok Option.none
          rw [hdb]]
        rfl
      · exact cacheGet_cachePut_self w.cache sid _
      · unfold sessionHist
        rw [hc]
    | inr hc =>
      obtain ⟨st, xs, hcg, hh, he⟩ := hc
      refine ⟨st, w, ?_, xs, hh, he, hcg, sessionHist_eq w sid st xs hcg hh⟩
      unfold smLoad
      rw [hcg]
  have ha : autoRun analyzeRuleBased planFn inMemGet reg u sid now ps w1 =
      Except.ok (resp, w') := by
    unfold processRequest at h
    rw [hld] at h
    exact h
  have hpe : (planFn (analyzeRuleBased (pyStrip u) ps.current_phase) ps).isEmpty =
      false := by
    unfold turnExecuted at hexec
    rw [hld] at hexec
    have hexec' :
        (!(planFn (analyzeRuleBased (pyStrip u) ps.current_phase) ps).isEmpty) =
        true := hexec
    simpa using hexec'
  unfold autoRun at ha
  rw [if_neg (by simp [hpe])] at ha
  obtain ⟨psw, hrt, ha⟩ := except_bind_ok ha
  obtain ⟨message, hsy, ha⟩ := except_bind_ok ha
  obtain ⟨hist, hh2, ha⟩ := except_map_ok ha
  have hpres := runTasks_history inMemGet reg sid u now (hreg u)
    (planFn (analyzeRuleBased (pyStrip u) ps.current_phase) ps) ps w1 []
    psw.1 psw.2.1 psw.2.2 hsync hrt
  have hxs : psw.1.conversation_history = PyVal.list xs := hpres.1.trans hhist
  rw [hxs] at hh2
  have hh3 : (Except.ok xs : Except String (List PyVal)) = Except.ok hist := hh2
  injection hh3 with hhist2
  injection ha with hresp hw
  subst hresp
  subst hw
  constructor
  · right
    refine ⟨appendTurns psw.1 hist u message,
      hist ++ [userEntry u, asstEntry message], cacheGet_cachePut_self _ _ _,
      rfl, ?_⟩
    rw [← hhist2]
    have hlen : (xs ++ [userEntry u, asstEntry message]).length = xs.length + 2 := by
      simp
    rw [hlen]
    omega
  · rw [sessionHist_eq _ sid (appendTurns psw.1 hist u message)
      (hist ++ [userEntry u, asstEntry message]) (cacheGet_cachePut_self _ _ _) rfl,
      hsh, ← hhist2]

/-- N sequential requests, each getting past load/classify/plan, extend the
transcript by exactly 2N entries and keep it alternating. -/
theorem processTurns_transcript (reg : Registry) (sid : String) (now : Int)
    (hreg : ∀ (u' : String) (t : Task) (ps' : ProjectState) (r : RunResult),
      taskOutcome reg u' t ps' = some r → deltaKeysOk r.state_delta = true) :
    ∀ (us : List String) (w w' : World),
      sessionOk sid w → altRoles (sessionHist w sid) true = true →
      allExecuted inMemGet reg sid now us w = true →
      processTurns inMemGet reg sid now us w = Except.ok w' →
      sessionOk sid w' ∧ altRoles (sessionHist w' sid) true = true ∧
      (sessionHist w' sid).length = (sessionHist w sid).length + 2 * us.length := by
  intro us
  induction us with
  | nil =>
    intro w w' hokw halt _ h
    have h' : (Except.ok w : Except String World) = Except.ok w' := h
    injection h' with h1
    rw [← h1]
    exact ⟨hokw, halt, by simp⟩
  | cons u us ih =>
    intro w w' hokw halt hall h
    have h2 : (processRequest inMemGet reg w u sid now).bind
        (fun rw => processTurns inMemGet reg sid now us rw.2) = Except.ok w' := h
    obtain ⟨rw1, hpr, hrest⟩ := except_bind_ok h2
    have hall2 : turnExecuted inMemGet u sid now w = true ∧
        allExecuted inMemGet reg sid now us rw1.2 = true := by
      have hall' : (turnExecuted inMemGet u sid now w &&
        (match processRequest inMemGet reg w u sid now with
         | Except.ok rw => allExecuted inMemGet reg sid now us rw.2
         | Except.error _ => false)) = true := hall
      rw [hpr] at hall'
      have hall'' : (turnExecuted inMemGet u sid now w &&
        allExecuted inMemGet reg sid now us rw1.2) = true := hall'
      simp only [Bool.and_eq_true] at hall''
      exact hall''
    have hstep := turn_step reg u sid now w hreg hokw hall2.1 rw1.1 rw1.2 hpr
    have haltnew : altRoles (sessionHist rw1.2 sid) true = true := by
      rw [hstep.2]
      exact altRoles_append_two (sessionHist w sid) u rw1.1.message
        (sessionOk_even sid w hokw) halt
    have ihh := ih rw1.2 w' hstep.1 haltnew hall2.2 hrest
    refine ⟨ihh.1, ihh.2.1, ?_⟩
    rw [ihh.2.2, hstep.2]
    simp only [List.length_append, List.length_cons, List.length_nil]
    omega

/-- C2 — for a sequence of N processed requests on one session (each
getting past load/classify/plan with a non-empty plan), the conversation
history has length exactly 2N and strictly alternates roles starting with
`"user"`, regardless of how many tasks ran per turn (the registry only has
to keep its deltas away from `conversation_history`, as every shipped
adapter does); a request failing in load returns the error response with
the world untouched, and a request whose planning stage emits no plan
returns the no-plan response with only the load's cache refresh — neither
appends a transcript entry. -/
theorem claim_C2_transcript_2N (reg : Registry) (sid : String) (now : Int)
    (us : List String) (w' : World)
    (hreg : ∀ (u : String) (t : Task) (ps' : ProjectState) (r : RunResult),
      taskOutcome reg u t ps' = some r → deltaKeysOk r.state_delta = true)
    (hrun : processTurns inMemGet reg sid now us { cache := [], db := [] } =
      Except.ok w')
    (hexec : allExecuted inMemGet reg sid now us { cache := [], db := [] } = true) :
    (sessionHist w' sid).length = 2 * us.length
    ∧ altRoles (sessionHist w' sid) true = true
    ∧ (∀ (getf : AdapterGet) (w2 : World) (u e : String),
        smLoad getf w2 sid now = Except.error e →
        processRequest getf reg w2 u sid now =
          Except.ok ({ message := "Error: " ++ e, state_snapshot := Option.none,
                       artifacts := [], intent := Option.none,
                       plan := Option.none }, w2))
    ∧ (∀ (getf : AdapterGet) (w2 : World) (u : String) (ps : ProjectState)
        (w1 : World),
        smLoad getf w2 sid now = Except.ok (ps, w1) →
        (planFn (analyzeRuleBased (pyStrip u) ps.current_phase) ps).isEmpty = true →
        processRequest getf reg w2 u sid now =
          Except.ok ({ message := "No plan or state.",
                       state_snapshot := some ps.dump,
                       artifacts := [],
                       intent := some (analyzeRuleBased (pyStrip u) ps.current_phase),
                       plan := some (planFn (analyzeRuleBased (pyStrip u)
                         ps.current_phase) ps) }, w1)) := by
  have hmain := processTurns_transcript reg sid now hreg us
    { cache := [], db := [] } w' (Or.inl ⟨rfl, rfl⟩) rfl hexec hrun
  refine ⟨?_, hmain.2.1, ?_, ?_⟩
  · have h0 : (sessionHist { cache := [], db := [] } sid).length = 0 := rfl
    have := hmain.2.2
    omega
  · intro getf w2 u e hld
    unfold processRequest
    rw [hld]
  · intro getf w2 u ps w1 hld hempty
    unfold processRequest
    rw [hld]
    show autoRun analyzeRuleBased planFn getf reg u sid now ps w1 = _
    unfold autoRun
    rw [if_pos hempty]

/-- C2's witness: two processed turns on a fresh session with the empty
registry (every task skipped) give a transcript of length 4 alternating
user/assistant. -/
theorem claim_C2_witness :
    processTurns inMemGet c2Reg "s2" 7 ["hello", "hello again"]
      { cache := [], db := [] } = Except.ok c2WorldF
    ∧ allExecuted inMemGet c2Reg "s2" 7 ["hello", "hello again"]
      { cache := [], db := [] } = true
    ∧ (sessionHist c2WorldF "s2").length = 2 * 2
    ∧ altRoles (sessionHist c2WorldF "s2") true = true := by
  have h := claim_C2_transcript_2N c2Reg "s2" 7 ["hello", "hello again"] c2WorldF
    (fun u t ps' r hx =>
      Option.noConfusion (show (Option.none : Option RunResult) = some r from hx))
    rfl rfl
  exact ⟨rfl, rfl, h.1, h.2.1⟩

end AgenticMentor
